import Mathlib

/-!
# Verification of the jive evaluation engine

A shallow embedding of the evaluation engine of the jive interactive
JS/TS evaluator (`src/server/src/engine.ts`, plus the alternate store
module shipped as `src/unnamed/part_001`), together with theorems
that settle claims C1-C10 about its specification.

Modelling conventions:

* JavaScript values are the inductive `JSVal`.  The host platform's
  module loader (`createRequire(...)(s)`) is `hostRequire`: an absolute
  specifier names a disk file, which Node loads and executes as a plain
  CommonJS module (no jive rewriting, no store) and whose final
  `module.exports` is the result, exceptions propagating to the
  requirer; any other specifier is host-resolved outside the modelled
  disk and is kept opaque as the tagged value `JSVal.hostModule s`,
  reading property `p` of which yields `JSVal.hostProp s p`.  The
  loader's module cache (which in Node also short-circuits `require`
  cycles among disk files) is not modelled; no modelled scenario loads
  one disk file twice, where the cache would be observable.
* `Map`s of the source are association lists with JS `Map` semantics:
  `set` overwrites in place keeping the original insertion position,
  `get` returns the first (unique) match.
* Node's path handling is modelled on POSIX form: a path is absolute
  iff it starts with `/`.  `require.resolve` (`normalizeImportPath`)
  is host code, modelled as: absolute specifiers resolve to themselves,
  `./`-relative specifiers are joined onto the importing file's
  directory, and bare specifiers (core modules) resolve to themselves.
  No extension inference is modelled; concrete examples use full file
  names.
* `uuid()` is modelled by a fresh-name counter threaded through the
  engine state; the generated names never collide with user
  identifiers in the programs considered.
-/

/-! ## Association lists with JS `Map` semantics -/

/-- JS `Map.prototype.get`: first (unique) binding of the key. -/
def alget {α β : Type} [DecidableEq α] : List (α × β) → α → Option β
  | [], _ => none
  | (k, v) :: rest, a => if k = a then some v else alget rest a

/-- JS `Map.prototype.set`: overwrite in place, else append. -/
def alset {α β : Type} [DecidableEq α] : List (α × β) → α → β → List (α × β)
  | [], a, b => [(a, b)]
  | (k, v) :: rest, a, b =>
    if k = a then (k, b) :: rest else (k, v) :: alset rest a b

/-! ## JavaScript values -/

/-- The default-export / namespace-export sentinels (`symbols` in
`engine.ts`); a `Symbol(desc)` value is `JSVal.sym desc`. -/
inductive JSVal : Type where
  /-- `undefined`. -/
  | undef : JSVal
  /-- a number (only integral values appear in the claims). -/
  | num : Int → JSVal
  /-- a string. -/
  | str : String → JSVal
  /-- a boolean. -/
  | bool : Bool → JSVal
  /-- a `Symbol(desc)` value. -/
  | sym : String → JSVal
  /-- a plain object literal (own enumerable properties, in order). -/
  | obj : List (String × JSVal) → JSVal
  /-- the module object the host loader returns for a specifier. -/
  | hostModule : String → JSVal
  /-- a named property of a host-loaded module. -/
  | hostProp : String → String → JSVal
  /-- the `module` CJS stub (the proxy built in `evaluate`). -/
  | stubModule : JSVal
  /-- the `exports` CJS stub (the proxy built in `evaluate`). -/
  | stubExports : JSVal
  /-- the `require` CJS stub. -/
  | stubRequire : JSVal

/-- JS truthiness for the values we model. -/
def JSVal.truthy : JSVal → Bool
  | .undef => false
  | .num n => n != 0
  | .str s => !(s == "")
  | .bool b => b
  | .sym _ => true
  | .obj _ => true
  | .hostModule _ => true
  | .hostProp _ _ => true
  | .stubModule => true
  | .stubExports => true
  | .stubRequire => true

/-! ## Paths (POSIX model of `fsPath` / `createRequire(..).resolve`) -/

/-- `fsPath.isAbsolute` (POSIX): the path starts with `/`. -/
def isAbsolutePath (s : String) : Bool :=
  match s.data with
  | '/' :: _ => true
  | _ => false

/-- Does the specifier start with `./` (a relative import)? -/
def isDotRelative (s : String) : Bool :=
  match s.data with
  | '.' :: '/' :: _ => true
  | _ => false

/-- `fsPath.dirname` (POSIX): everything before the last slash. -/
def dirName (s : String) : String :=
  String.mk ((((s.data.reverse).dropWhile (fun c => !(c = '/'))).drop 1).reverse)

/-- `normalizeImportPath` (engine.ts line 533):
`createRequire(importingNamespace).resolve(importedNamespace)`.
The host resolver is modelled as: absolute specifiers resolve to
themselves, `./`-relative specifiers join the importer's directory,
bare specifiers (core modules such as `fs`) resolve to themselves. -/
def normalizeImportPath (importingNamespace importedNamespace : String) : String :=
  if isAbsolutePath importedNamespace then importedNamespace
  else if isDotRelative importedNamespace then
    dirName importingNamespace ++ "/" ++ String.mk (importedNamespace.data.drop 2)
  else importedNamespace

/-! ## The namespace store (engine.ts lines 12-49) -/

/-- Key of the `valueExports` maps: a plain exported name or the
`symbols.defaultExport` sentinel. -/
inductive ExportKey : Type where
  | name : String → ExportKey
  | defaultExport : ExportKey
  deriving Repr, DecidableEq

/-- The `imported` field of an `Import`: a plain name,
`symbols.defaultExport`, or `symbols.namespaceExport`. -/
inductive ImportKey : Type where
  | name : String → ImportKey
  | defaultExport : ImportKey
  | namespaceExport : ImportKey
  deriving Repr, DecidableEq

/-- `interface Export` (engine.ts line 25): `exported` is the outward
name, `localName` the key within the namespace (`local` in the source;
renamed because `local` is a Lean keyword). -/
structure Export : Type where
  exported : ExportKey
  localName : String
  deriving Repr, DecidableEq

/-- `interface Import` (engine.ts line 35). -/
structure Import : Type where
  importedNamespace : String
  imported : ImportKey
  localName : String
  isBuiltIn : Bool
  deriving Repr, DecidableEq

/-- The process-wide mutable state of the engine: the three module-level
`Map`s of engine.ts (`namespaces`, `valueExports`, `valueImports`),
plus the fresh-name counter modelling `uuid()`, and the host's standard
error stream (written by the wrapper's `console.error`).
(The fourth map, `namespaceImports`, is declared in the source but
never written; it is omitted.) -/
structure EngineState : Type where
  namespaces : List (String × List (String × JSVal))
  valueExports : List (String × List (ExportKey × Export))
  valueImports : List (String × List (String × Import))
  nextId : Nat
  stderrLog : List String

/-- The state at process start: all maps empty. -/
def emptyState : EngineState :=
  { namespaces := [], valueExports := [], valueImports := [], nextId := 0, stderrLog := [] }

/-- `uuid()`: a fresh synthetic identifier plus the bumped state. -/
def freshId (st : EngineState) : String × EngineState :=
  ("__uuid_" ++ toString st.nextId, { st with nextId := st.nextId + 1 })

/-- `console.error` in the wrapper / engine: append to standard error. -/
def pushStderr (msg : String) (st : EngineState) : EngineState :=
  { st with stderrLog := st.stderrLog ++ [msg] }

/-- `registerValue` (engine.ts line 222): create the namespace's value
map if absent and set `key` to `value`.  Returns the value (the JS
function's return), paired with the updated state. -/
def registerValue (st : EngineState) (namespace_ key : String) (value : JSVal) :
    JSVal × EngineState :=
  let values := (alget st.namespaces namespace_).getD []
  (value, { st with namespaces := alset st.namespaces namespace_ (alset values key value) })

/-- `registerValueExport` (engine.ts line 229): record
`exported ↦ { exported, local }` in the namespace's export map.  Note:
the source performs no check that a binding named `localName` exists. -/
def registerValueExport (st : EngineState) (namespace_ : String)
    (localName : String) (exported : ExportKey) : EngineState :=
  let nsExports := (alget st.valueExports namespace_).getD []
  let updated := alset nsExports exported { exported := exported, localName := localName }
  { st with valueExports := alset st.valueExports namespace_ updated }

/-- `registerDefaultValueExport` (engine.ts line 240): record the
default export.  Again no check on `localName`. -/
def registerDefaultValueExport (st : EngineState) (namespace_ localName : String) :
    EngineState :=
  let exports := (alget st.valueExports namespace_).getD []
  let entry : Export := { exported := ExportKey.defaultExport, localName := localName }
  let updated := alset exports ExportKey.defaultExport entry
  { st with valueExports := alset st.valueExports namespace_ updated }

/-- `registerValueImport` (engine.ts line 250): normalize the imported
path, then record the import keyed by its local name. -/
def registerValueImport (st : EngineState) (importingNamespace : String)
    (localName : String) (imported : ImportKey) (importedNamespace : String)
    (isBuiltIn : Bool) : EngineState :=
  let absoluteImportedNamespace := normalizeImportPath importingNamespace importedNamespace
  let imports := (alget st.valueImports importingNamespace).getD []
  let entry : Import := { imported := imported, localName := localName,
                          importedNamespace := absoluteImportedNamespace,
                          isBuiltIn := isBuiltIn }
  { st with valueImports := alset st.valueImports importingNamespace (alset imports localName entry) }

/-- `constructNamespaceExport` (engine.ts line 205): materialize a
namespace object from the target's exports: each `(exported, local)`
pair becomes a property (key `default` for the default-export
sentinel) whose value is the binding currently named `local`
(`undefined` when absent, as `values.get` yields). -/
def constructNamespaceExport (st : EngineState) (namespace_ : String) : JSVal :=
  let values := (alget st.namespaces namespace_).getD []
  let exports := (alget st.valueExports namespace_).getD []
  JSVal.obj (exports.map (fun p =>
    let v := (alget values p.2.localName).getD JSVal.undef
    match p.2.exported with
    | ExportKey.defaultExport => ("default", v)
    | ExportKey.name s => (s, v)))

/-! ## Scope synthesis (engine.ts lines 74-173)

The per-import scope values (`nsImportsForScope`) consult the host
loader, whose disk-file branch runs on the fragment AST; they are
defined after the AST, below. -/

/-- The value the `exports`-stub proxy's `get` trap returns: the
internal `Export` record itself, reified as the object
`{ exported, local }` it is in JS. -/
def exportToVal (e : Export) : JSVal :=
  JSVal.obj [("exported", match e.exported with
              | ExportKey.name s => JSVal.str s
              | ExportKey.defaultExport => JSVal.sym "[[defaultExport]]"),
             ("local", JSVal.str e.localName)]

/-- The fixed CJS-stub names placed on the vm context (engine.ts lines
149-155).  `exports` is `moduleStub.exports` read once at scope
synthesis, i.e. the exports-stub proxy. -/
def cjsStub (namespace_ : String) : List (String × JSVal) :=
  [("module", JSVal.stubModule),
   ("exports", JSVal.stubExports),
   ("require", JSVal.stubRequire),
   ("__filename", JSVal.str namespace_),
   ("__dirname", JSVal.str (dirName namespace_))]

/-- A modelled selection of the host's global names, copied onto the vm
context (engine.ts lines 169-173). -/
def hostGlobals : List (String × JSVal) :=
  [("globalThis", JSVal.hostModule "globalThis"),
   ("console", JSVal.hostModule "console"),
   ("process", JSVal.hostModule "process"),
   ("Math", JSVal.hostModule "Math")]

/-- The synthesized scope a rewritten fragment runs against:
`bindings` is the `nsForScope` snapshot of the namespace's values,
`imports` the `nsImportsForScope` snapshot. -/
structure Scope : Type where
  namespace_ : String
  bindings : List (String × JSVal)
  imports : List (String × JSVal)

/-- Free-identifier lookup of the rewritten code (engine.ts lines
175-191).  The wrapper is
`with (nsImportsForScope) { with (nsForScope) { (function(){...})() } }`
run against a context spread as `{...vmGlobal, ...cjsStubs, ...}`, so
JS scoping consults the INNER `with` object first: namespace bindings,
then resolved imports, then the context object, on which the CJS stubs
were spread after (hence override) the host globals.
(The registration helpers and the two scope objects themselves are
also context properties; like `Object.prototype` names visible through
`with`, they are artifacts not consulted by the claims and are left
out.) -/
def scopeLookup (scope : Scope) (name : String) : Option JSVal :=
  match alget scope.bindings name with
  | some v => some v
  | none =>
    match alget scope.imports name with
    | some v => some v
    | none =>
      match alget (cjsStub scope.namespace_) name with
      | some v => some v
      | none => alget hostGlobals name

/-! ## Source fragments and rewritten programs

Fragment ASTs cover the constructs the claims exercise.  The rewriter's
export visitors are embedded at the level of the registration functions
they emit (`registerValueExport`, `registerDefaultValueExport`); no
claim depends on the export statements' AST transformation, so export
statements are not part of the fragment grammar.  Dynamic `import()` is
embedded as the standalone `dynamicImport` function it is rewritten to.
-/

/-- Expressions, shared by source fragments and rewritten programs.
`registerValueCall` is the registration call the rewriter inserts
(a plain `CallExpression` of the context helper at runtime). -/
inductive Expr : Type where
  | lit : JSVal → Expr
  | ident : String → Expr
  | add : Expr → Expr → Expr
  | member : Expr → String → Expr
  | assign : Expr → String → Expr → Expr
  | requireCall : Expr → Expr
  | registerValueCall : String → String → Expr → Expr

/-- Statements of the rewritten (post-transform) program. -/
inductive Stmt : Type where
  | exprStmt : Expr → Stmt
  | ret : Expr → Stmt
  | constDecl : String → Expr → Stmt
  | throwStmt : String → Stmt

/-- One specifier of an `import ... from 's'` declaration. -/
inductive ImportSpec : Type where
  /-- `import { imported as localName }` (`ImportSpecifier`). -/
  | named : String → String → ImportSpec
  /-- `import localName` (`ImportDefaultSpecifier`). -/
  | defaultSpec : String → ImportSpec
  /-- `import * as localName` (`ImportNamespaceSpecifier`). -/
  | namespaceSpec : String → ImportSpec

/-- Statements of a source fragment. -/
inductive SrcStmt : Type where
  | exprStmt : Expr → SrcStmt
  | constDecl : String → Expr → SrcStmt
  | importDecl : List ImportSpec → String → SrcStmt
  | throwStmt : String → SrcStmt

/-- A cell of the rewriter's working statement list: an original source
statement, or an already-rewritten runtime statement inserted by the
`Program`-enter visitor. -/
inductive TCell : Type where
  | src : SrcStmt → TCell
  | run : Stmt → TCell

/-- The `Program`-enter visitor (engine.ts lines 304-338): after each
statement introducing a top-level binding, insert
`registerValue(filePath, name, name)`.  Import-introduced bindings are
skipped (lines 310-313); babel traverses the inserted statements, which
is why they are kept as cells for the statement visitors below. -/
def phaseA (namespace_ : String) : List SrcStmt → List TCell
  | [] => []
  | SrcStmt.constDecl n e :: rest =>
    TCell.src (SrcStmt.constDecl n e) ::
      TCell.run (Stmt.exprStmt (Expr.registerValueCall namespace_ n (Expr.ident n))) ::
        phaseA namespace_ rest
  | s :: rest => TCell.src s :: phaseA namespace_ rest

/-- Files on disk, already parsed: absolute path ↦ fragment.
`fs.readFileSync` is `alget`; a missing path raises. -/
abbrev FileSystem := List (String × List SrcStmt)

/-! ## The evaluator -/

/-- Evaluation failures that escape a call: `raised` is a JS exception
propagating outside any wrapper (resolution/read failures during the
rewrite, i.e. the spec's fatal errors); `outOfFuel` is the fuel
model's stand-in for non-termination and is never a JS exception. -/
inductive EngErr : Type where
  | outOfFuel : EngErr
  | raised : String → EngErr
  deriving Repr, DecidableEq

/-- Result of a computation that threads the engine state also through
failures (the source mutates module-level maps in place). -/
inductive ERes (α : Type) : Type where
  | ok : α → EngineState → ERes α
  | err : EngErr → EngineState → ERes α

/-- How the wrapped body finished: fell through, hit the rewritten
trailing `return`, or threw a user exception (caught by the wrapper). -/
inductive Outcome : Type where
  | normal : Outcome
  | returned : JSVal → Outcome
  | thrown : String → Outcome

/-- An expression either produces a value or throws. -/
inductive ExprRes : Type where
  | val : JSVal → ExprRes
  | thrown : String → ExprRes

/-- Call-local mutable environment: the IIFE's `const` bindings and the
`module` proxy target's `exports` property. -/
structure RunEnv : Type where
  locals : List (String × JSVal)
  moduleExports : JSVal

/-- The type of `evaluate`; the recursive evaluations the engine makes
(import-enter, `require`, dynamic import) go through a `recur` of this
type, instantiated with a fuel-smaller `evaluate`. -/
abbrev EvalFn : Type :=
  FileSystem → EngineState → String → List SrcStmt → Bool → ERes JSVal

/-- JS `+` for the value shapes the claims use (numbers and strings);
other operand shapes do not occur in the modelled programs. -/
def jsAdd : JSVal → JSVal → JSVal
  | JSVal.num a, JSVal.num b => JSVal.num (a + b)
  | JSVal.str a, JSVal.str b => JSVal.str (a ++ b)
  | _, _ => JSVal.undef

/-! ## The host CommonJS loader

`createRequire(...)(specifier)` is host code, but its behavior is
observable through the engine: an ABSOLUTE specifier names a disk
file, which Node loads and executes as a plain CommonJS module — no
jive rewriting, no store access — and the file's final
`module.exports` is the call's value (an exception during the load
propagates to the requirer).  Any other specifier is host-resolved
outside the modelled disk and stays the opaque `JSVal.hostModule`.
The stub tags double as the plain `module` / `exports` objects of such
an execution; the rules below give them Node's semantics (`exports`
aliases `module.exports` until the latter is reassigned; a program
that stores the `module` object itself into `module.exports` would
leak the tag, which no real fragment among the modelled scenarios
does). -/

/-- Mutable state of one plain CommonJS module execution: the file's
`const` bindings, the current `module.exports`, and — once
`module.exports` has been reassigned — the detached original
`exports` object. -/
structure CjsEnv : Type where
  locals : List (String × JSVal)
  moduleExports : JSVal
  exportsAlias : Option JSVal

/-- The object the `exports` binding denotes: the detached original
after a `module.exports` reassignment, else `module.exports` itself
(they are one object until then). -/
def cjsExportsView (env : CjsEnv) : JSVal :=
  env.exportsAlias.getD env.moduleExports

/-- Property read during plain CommonJS execution (no proxy traps):
`module.exports` reads the module object's field, `exports` reads the
aliased object, plain objects read their field, reads on `undefined`
throw. -/
def cjsMemberRead (env : CjsEnv) (o : JSVal) (prop : String) : ExprRes :=
  match o with
  | JSVal.stubModule =>
    if prop == "exports" then ExprRes.val env.moduleExports else ExprRes.val JSVal.undef
  | JSVal.stubExports =>
    match cjsExportsView env with
    | JSVal.obj fields => ExprRes.val ((alget fields prop).getD JSVal.undef)
    | _ => ExprRes.val JSVal.undef
  | JSVal.obj fields => ExprRes.val ((alget fields prop).getD JSVal.undef)
  | JSVal.hostModule id => ExprRes.val (JSVal.hostProp id prop)
  | JSVal.undef => ExprRes.thrown ("TypeError: cannot read " ++ prop ++ " of undefined")
  | _ => ExprRes.val JSVal.undef

/-- Property write on the `exports` object during plain CommonJS
execution: while `exports` still aliases `module.exports` the write
lands there, afterwards on the detached object. -/
def cjsExportsWrite (env : CjsEnv) (prop : String) (v : JSVal) : CjsEnv :=
  match env.exportsAlias with
  | none =>
    match env.moduleExports with
    | JSVal.obj fields => { env with moduleExports := JSVal.obj (alset fields prop v) }
    | _ => env
  | some e =>
    match e with
    | JSVal.obj fields => { env with exportsAlias := some (JSVal.obj (alset fields prop v)) }
    | _ => env

/-- Assignment `o.prop = v` during plain CommonJS execution: a
`module.exports` reassignment detaches the `exports` alias; writes
through `exports` follow the alias rule; other objects absorb the
write (plain objects are modelled immutably, as in the engine's
evaluator); writes on `undefined` throw; a failed primitive write is
silent (a CommonJS file body is sloppy-mode, unlike the engine's
strict wrapper). -/
def cjsAssign (env : CjsEnv) (target : JSVal) (prop : String) (v : JSVal) :
    ExprRes × CjsEnv :=
  match target with
  | JSVal.stubModule =>
    if prop == "exports" then
      (ExprRes.val v, { env with moduleExports := v, exportsAlias := some (cjsExportsView env) })
    else (ExprRes.val v, env)
  | JSVal.stubExports => (ExprRes.val v, cjsExportsWrite env prop v)
  | JSVal.undef =>
    (ExprRes.thrown ("TypeError: cannot set " ++ prop ++ " of undefined"), env)
  | _ => (ExprRes.val v, env)

/-- Expression evaluation during plain CommonJS execution of a disk
file.  `recur` is the loader for nested `require` calls (resolution
against this file's directory is already composed into it); `path` is
the file's own path for `__filename` / `__dirname`.  The engine's
`registerValue` helper is not in scope in plain Node, so a
registration call node throws. -/
def cjsEvalExpr (recur : String → ExprRes) (path : String) :
    CjsEnv → Expr → ExprRes × CjsEnv
  | env, Expr.lit v => (ExprRes.val v, env)
  | env, Expr.ident n =>
    match alget env.locals n with
    | some v => (ExprRes.val v, env)
    | none =>
      if n == "module" then (ExprRes.val JSVal.stubModule, env)
      else if n == "exports" then (ExprRes.val JSVal.stubExports, env)
      else if n == "require" then (ExprRes.val JSVal.stubRequire, env)
      else if n == "__filename" then (ExprRes.val (JSVal.str path), env)
      else if n == "__dirname" then (ExprRes.val (JSVal.str (dirName path)), env)
      else (ExprRes.thrown ("ReferenceError: " ++ n ++ " is not defined"), env)
  | env, Expr.add a b =>
    match cjsEvalExpr recur path env a with
    | (ExprRes.thrown m, env2) => (ExprRes.thrown m, env2)
    | (ExprRes.val va, env2) =>
      match cjsEvalExpr recur path env2 b with
      | (ExprRes.thrown m, env3) => (ExprRes.thrown m, env3)
      | (ExprRes.val vb, env3) => (ExprRes.val (jsAdd va vb), env3)
  | env, Expr.member o prop =>
    match cjsEvalExpr recur path env o with
    | (ExprRes.thrown m, env2) => (ExprRes.thrown m, env2)
    | (ExprRes.val ov, env2) => (cjsMemberRead env2 ov prop, env2)
  | env, Expr.assign o prop vE =>
    match cjsEvalExpr recur path env o with
    | (ExprRes.thrown m, env2) => (ExprRes.thrown m, env2)
    | (ExprRes.val ov, env2) =>
      match cjsEvalExpr recur path env2 vE with
      | (ExprRes.thrown m, env3) => (ExprRes.thrown m, env3)
      | (ExprRes.val vv, env3) => cjsAssign env3 ov prop vv
  | env, Expr.requireCall specE =>
    match (alget env.locals "require").getD JSVal.stubRequire with
    | JSVal.stubRequire =>
      match cjsEvalExpr recur path env specE with
      | (ExprRes.thrown m, env2) => (ExprRes.thrown m, env2)
      | (ExprRes.val v, env2) =>
        match v with
        | JSVal.str s => (recur s, env2)
        | _ => (ExprRes.thrown "TypeError: invalid require specifier", env2)
    | _ => (ExprRes.thrown "TypeError: require is not a function", env)
  | env, Expr.registerValueCall _ _ _ =>
    (ExprRes.thrown "ReferenceError: registerValue is not defined", env)

/-- Does the program contain an `import` declaration?  A CommonJS file
holding one fails to parse, before any statement runs. -/
def hasImportDecl : List SrcStmt → Bool
  | [] => false
  | SrcStmt.importDecl _ _ :: _ => true
  | _ :: rest => hasImportDecl rest

/-- Statement execution during plain CommonJS execution; a thrown
exception aborts the file and propagates to the requirer. -/
def cjsRunStmts (recur : String → ExprRes) (path : String) :
    CjsEnv → List SrcStmt → Option String × CjsEnv
  | env, [] => (none, env)
  | env, SrcStmt.exprStmt e :: rest =>
    match cjsEvalExpr recur path env e with
    | (ExprRes.thrown m, env2) => (some m, env2)
    | (ExprRes.val _, env2) => cjsRunStmts recur path env2 rest
  | env, SrcStmt.constDecl n e :: rest =>
    match cjsEvalExpr recur path env e with
    | (ExprRes.thrown m, env2) => (some m, env2)
    | (ExprRes.val v, env2) =>
      cjsRunStmts recur path { env2 with locals := alset env2.locals n v } rest
  | env, SrcStmt.importDecl _ _ :: _ =>
    (some "SyntaxError: Cannot use import statement outside a module", env)
  | env, SrcStmt.throwStmt m :: _ => (some m, env)

/-- Node loading one disk file as a plain CommonJS module: a file with
an `import` declaration fails to parse; otherwise the statements run
against a fresh module whose exports object starts as `{}`, and the
final `module.exports` is the module's value. -/
def cjsRunModule (recur : String → ExprRes) (path : String) (prog : List SrcStmt) : ExprRes :=
  if hasImportDecl prog then
    ExprRes.thrown "SyntaxError: Cannot use import statement outside a module"
  else
    let env0 : CjsEnv := { locals := [], moduleExports := JSVal.obj [], exportsAlias := none }
    match cjsRunStmts recur path env0 prog with
    | (some m, _) => ExprRes.thrown m
    | (none, env) => ExprRes.val env.moduleExports

/-- The host's finite call-stack budget for nested disk-file loads;
exhausting it is Node's stack-overflow error (no modelled scenario
nests past depth one). -/
def hostStackBudget : Nat := 64

/-- Disk-file loading (absolute specifiers): read the file (a missing
file throws), execute it as a plain CommonJS module, and resolve its
nested `require` specifiers against the file's own directory. -/
def hostRequireF (fs : FileSystem) : Nat → String → ExprRes
  | 0, _ => ExprRes.thrown "RangeError: Maximum call stack size exceeded"
  | fuel + 1, specifier =>
    if isAbsolutePath specifier then
      match alget fs specifier with
      | none => ExprRes.thrown ("Error: Cannot find module " ++ specifier)
      | some prog =>
        cjsRunModule (fun s => hostRequireF fs fuel (normalizeImportPath specifier s))
          specifier prog
    else ExprRes.val (JSVal.hostModule specifier)

/-- The host module loader (`createRequire(...)(specifier)`): an
absolute specifier names a disk file, loaded and executed as a plain
CommonJS module whose final `module.exports` is the result; any other
specifier is host-resolved outside the modelled disk, opaquely. -/
def hostRequire (fs : FileSystem) (specifier : String) : ExprRes :=
  if isAbsolutePath specifier then hostRequireF fs hostStackBudget specifier
  else ExprRes.val (JSVal.hostModule specifier)

/-- The value placed in `nsImportsForScope[local]` for one import
record (engine.ts lines 78-99).  The stored record of a built-in
(engine.ts line 260 stores the normalized path, and the flag is set
at the sites that found that path not absolute) always carries a
non-absolute specifier, on which the host loader is total, so the
thrown arm is unreachable on source-built records. -/
def importScopeValue (fs : FileSystem) (st : EngineState) (imp : Import) : JSVal :=
  if imp.isBuiltIn = false ∧ imp.imported = ImportKey.namespaceExport then
    constructNamespaceExport st imp.importedNamespace
  else if imp.isBuiltIn then
    match hostRequire fs imp.importedNamespace with
    | ExprRes.thrown _ => JSVal.undef
    | ExprRes.val module_ =>
      match imp.imported with
      | ImportKey.defaultExport => module_
      | ImportKey.namespaceExport => module_
      | ImportKey.name s =>
        match module_ with
        | JSVal.hostModule id => JSVal.hostProp id s
        | JSVal.obj fields => (alget fields s).getD JSVal.undef
        | _ => JSVal.undef
  else
    -- user module, named or default import: walk
    -- exports-by-imported → export's local → bindings-by-local,
    -- each `?.` / `&&` step collapsing to undefined when missing.
    let key := match imp.imported with
      | ImportKey.name s => some (ExportKey.name s)
      | ImportKey.defaultExport => some ExportKey.defaultExport
      | ImportKey.namespaceExport => none  -- unreachable: handled above
    match key with
    | none => JSVal.undef
    | some k =>
      match alget st.valueExports imp.importedNamespace with
      | none => JSVal.undef
      | some nsExports =>
        match alget nsExports k with
        | none => JSVal.undef
        | some exported =>
          match alget st.namespaces imp.importedNamespace with
          | none => JSVal.undef
          | some vals => (alget vals exported.localName).getD JSVal.undef

/-- `nsImportsForScope` (engine.ts lines 77-100): one property per
stored import record, in insertion order. -/
def buildImportsForScope (fs : FileSystem) (st : EngineState)
    (nsImports : List (String × Import)) : List (String × JSVal) :=
  nsImports.map (fun p => (p.1, importScopeValue fs st p.2))

/-- Property read.  For the `exports` stub this is the proxy's `get`
trap (engine.ts lines 117-122): find the namespace's first Export
record whose `local` equals the property and return the RECORD itself
(not the bound value), or `undefined`.  For the `module` stub the
proxy has no `get` trap, so the target's `exports` property is read.
Reading a property of `undefined` throws. -/
def memberRead (st : EngineState) (namespace_ : String) (env : RunEnv)
    (o : JSVal) (prop : String) : ExprRes :=
  match o with
  | JSVal.stubExports =>
    let exportsOfNs := (alget st.valueExports namespace_).getD []
    match exportsOfNs.find? (fun p => p.2.localName == prop) with
    | some p => ExprRes.val (exportToVal p.2)
    | none => ExprRes.val JSVal.undef
  | JSVal.stubModule =>
    if prop == "exports" then ExprRes.val env.moduleExports else ExprRes.val JSVal.undef
  | JSVal.obj fields => ExprRes.val ((alget fields prop).getD JSVal.undef)
  | JSVal.hostModule id => ExprRes.val (JSVal.hostProp id prop)
  | JSVal.undef => ExprRes.thrown ("TypeError: cannot read " ++ prop ++ " of undefined")
  | _ => ExprRes.val JSVal.undef

/-- The `exports` stub's `set` trap (engine.ts lines 103-116): if a
default export is registered (its local key being a non-empty string —
the source tests the key's truthiness), set the property on the stored
default-export value when that value is truthy (written back to the
store, its only alias in the modelled programs; setting a property on
a truthy primitive throws in strict mode; host objects absorb the
write invisibly); otherwise lazily create a fresh default export
`{ prop: value }`. -/
def exportsStubSet (st : EngineState) (namespace_ prop : String) (value : JSVal) :
    ExprRes × EngineState :=
  let createFresh : ExprRes × EngineState :=
    let (id, st1) := freshId st
    let (_, st2) := registerValue st1 namespace_ id (JSVal.obj [(prop, value)])
    (ExprRes.val value, registerDefaultValueExport st2 namespace_ id)
  let localKeyOfDefaultExport :=
    match alget st.valueExports namespace_ with
    | none => none
    | some m => (alget m ExportKey.defaultExport).map Export.localName
  match localKeyOfDefaultExport with
  | none => createFresh
  | some k =>
    if k = "" then createFresh
    else
      match alget ((alget st.namespaces namespace_).getD []) k with
      | none => (ExprRes.val value, st)
      | some dv =>
        if dv.truthy then
          match dv with
          | JSVal.obj fields =>
            let vals := (alget st.namespaces namespace_).getD []
            let updated := alset st.namespaces namespace_ (alset vals k (JSVal.obj (alset fields prop value)))
            (ExprRes.val value, { st with namespaces := updated })
          | JSVal.hostModule _ => (ExprRes.val value, st)
          | JSVal.hostProp _ _ => (ExprRes.val value, st)
          | JSVal.stubModule => (ExprRes.val value, st)
          | JSVal.stubExports => (ExprRes.val value, st)
          | JSVal.stubRequire => (ExprRes.val value, st)
          | _ => (ExprRes.thrown "TypeError: cannot create property on primitive", st)
        else (ExprRes.val value, st)

/-- The `module` stub's `set` trap (engine.ts lines 130-145): write the
target property (only `exports` is ever read back), and when the
property is `exports`, store the value under a fresh synthetic binding
and register it as the namespace's default export. -/
def moduleStubSet (st : EngineState) (namespace_ prop : String) (value : JSVal)
    (env : RunEnv) : (ExprRes × RunEnv) × EngineState :=
  let env2 := if prop == "exports" then { env with moduleExports := value } else env
  if prop == "exports" then
    let (id, st1) := freshId st
    let (_, st2) := registerValue st1 namespace_ id value
    ((ExprRes.val value, env2), registerDefaultValueExport st2 namespace_ id)
  else ((ExprRes.val value, env2), st)

/-- `requireCustom` (engine.ts lines 51-64).  NOTE the built-in test is
on the RAW `importedNamespace` argument, not the normalized path.  For
a "built-in" the host loader is invoked on the NORMALIZED path — so a
relative specifier hands the resolved absolute disk file to Node's own
CommonJS loading, whose exception (if any) enters the calling user
code as a throw.  Otherwise, with `evalImports`, the target file is
read (a missing file raises) and recursively evaluated, and the
target's default-export value (or `undefined`) is returned.  A
`raised` failure of the nested evaluation is a JS exception
propagating into the calling user code, hence `thrown` here;
`outOfFuel` stays fatal. -/
def requireCustom (recur : EvalFn) (fs : FileSystem) (st : EngineState)
    (importingNamespace importedNamespace : String) (evalImports : Bool) :
    ERes ExprRes :=
  let requiredNsNormalized := normalizeImportPath importingNamespace importedNamespace
  let isBuiltIn := !isAbsolutePath importedNamespace
  if isBuiltIn then
    ERes.ok (hostRequire fs requiredNsNormalized) st
  else
    let afterEval : ERes JSVal :=
      if evalImports then
        match alget fs requiredNsNormalized with
        | none => ERes.err (EngErr.raised ("ENOENT: " ++ requiredNsNormalized)) st
        | some prog => recur fs st requiredNsNormalized prog evalImports
      else ERes.ok JSVal.undef st
    match afterEval with
    | ERes.err EngErr.outOfFuel st2 => ERes.err EngErr.outOfFuel st2
    | ERes.err (EngErr.raised msg) st2 => ERes.ok (ExprRes.thrown msg) st2
    | ERes.ok _ st2 =>
      let defaultExport :=
        match alget st2.valueExports requiredNsNormalized with
        | none => none
        | some m => alget m ExportKey.defaultExport
      match defaultExport with
      | none => ERes.ok (ExprRes.val JSVal.undef) st2
      | some e =>
        let result :=
          match alget st2.namespaces requiredNsNormalized with
          | none => JSVal.undef
          | some vals => (alget vals e.localName).getD JSVal.undef
        ERes.ok (ExprRes.val result) st2

/-- Expression evaluation inside the wrapper.  Identifier lookup goes
through the IIFE's own `const` bindings first, then the synthesized
scope; an unresolvable name throws (strict mode).  `require(s)`
resolves the callee `require` through the same chain (it may be
shadowed) before invoking `requireCustom`. -/
def evalExpr (recur : EvalFn) (fs : FileSystem) (evalImports : Bool) (scope : Scope) :
    RunEnv → EngineState → Expr → ERes (ExprRes × RunEnv)
  | env, st, Expr.lit v => ERes.ok (ExprRes.val v, env) st
  | env, st, Expr.ident n =>
    match alget env.locals n with
    | some v => ERes.ok (ExprRes.val v, env) st
    | none =>
      match scopeLookup scope n with
      | some v => ERes.ok (ExprRes.val v, env) st
      | none => ERes.ok (ExprRes.thrown ("ReferenceError: " ++ n ++ " is not defined"), env) st
  | env, st, Expr.add a b =>
    match evalExpr recur fs evalImports scope env st a with
    | ERes.err e st2 => ERes.err e st2
    | ERes.ok (ExprRes.thrown m, env2) st2 => ERes.ok (ExprRes.thrown m, env2) st2
    | ERes.ok (ExprRes.val va, env2) st2 =>
      match evalExpr recur fs evalImports scope env2 st2 b with
      | ERes.err e st3 => ERes.err e st3
      | ERes.ok (ExprRes.thrown m, env3) st3 => ERes.ok (ExprRes.thrown m, env3) st3
      | ERes.ok (ExprRes.val vb, env3) st3 => ERes.ok (ExprRes.val (jsAdd va vb), env3) st3
  | env, st, Expr.member o prop =>
    match evalExpr recur fs evalImports scope env st o with
    | ERes.err e st2 => ERes.err e st2
    | ERes.ok (ExprRes.thrown m, env2) st2 => ERes.ok (ExprRes.thrown m, env2) st2
    | ERes.ok (ExprRes.val ov, env2) st2 =>
      ERes.ok (memberRead st2 scope.namespace_ env2 ov prop, env2) st2
  | env, st, Expr.assign o prop vE =>
    match evalExpr recur fs evalImports scope env st o with
    | ERes.err e st2 => ERes.err e st2
    | ERes.ok (ExprRes.thrown m, env2) st2 => ERes.ok (ExprRes.thrown m, env2) st2
    | ERes.ok (ExprRes.val ov, env2) st2 =>
      match evalExpr recur fs evalImports scope env2 st2 vE with
      | ERes.err e st3 => ERes.err e st3
      | ERes.ok (ExprRes.thrown m, env3) st3 => ERes.ok (ExprRes.thrown m, env3) st3
      | ERes.ok (ExprRes.val vv, env3) st3 =>
        match ov with
        | JSVal.stubModule =>
          let r := moduleStubSet st3 scope.namespace_ prop vv env3
          ERes.ok r.1 r.2
        | JSVal.stubExports =>
          let r := exportsStubSet st3 scope.namespace_ prop vv
          ERes.ok (r.1, env3) r.2
        | JSVal.obj _ => ERes.ok (ExprRes.val vv, env3) st3
        | JSVal.hostModule _ => ERes.ok (ExprRes.val vv, env3) st3
        | JSVal.hostProp _ _ => ERes.ok (ExprRes.val vv, env3) st3
        | JSVal.stubRequire => ERes.ok (ExprRes.val vv, env3) st3
        | JSVal.undef =>
          ERes.ok (ExprRes.thrown ("TypeError: cannot set " ++ prop ++ " of undefined"), env3) st3
        | _ => ERes.ok (ExprRes.thrown "TypeError: cannot create property on primitive", env3) st3
  | env, st, Expr.requireCall specE =>
    let callee :=
      match alget env.locals "require" with
      | some v => some v
      | none => scopeLookup scope "require"
    match callee with
    | some JSVal.stubRequire =>
      match evalExpr recur fs evalImports scope env st specE with
      | ERes.err e st2 => ERes.err e st2
      | ERes.ok (ExprRes.thrown m, env2) st2 => ERes.ok (ExprRes.thrown m, env2) st2
      | ERes.ok (ExprRes.val v, env2) st2 =>
        match v with
        | JSVal.str s =>
          match requireCustom recur fs st2 scope.namespace_ s evalImports with
          | ERes.err e st3 => ERes.err e st3
          | ERes.ok r st3 => ERes.ok (r, env2) st3
        | _ => ERes.ok (ExprRes.thrown "TypeError: invalid require specifier", env2) st2
    | _ => ERes.ok (ExprRes.thrown "TypeError: require is not a function", env) st
  | env, st, Expr.registerValueCall ns key vE =>
    match evalExpr recur fs evalImports scope env st vE with
    | ERes.err e st2 => ERes.err e st2
    | ERes.ok (ExprRes.thrown m, env2) st2 => ERes.ok (ExprRes.thrown m, env2) st2
    | ERes.ok (ExprRes.val v, env2) st2 =>
      let r := registerValue st2 ns key v
      ERes.ok (ExprRes.val r.1, env2) r.2

/-- Execute the rewritten statement list inside the wrapper's `try`.
A `return` ends the IIFE with its value; a user exception ends the
body with `Outcome.thrown` (handed to the wrapper's `catch`). -/
def runStmts (recur : EvalFn) (fs : FileSystem) (evalImports : Bool) (scope : Scope) :
    RunEnv → EngineState → List Stmt → ERes Outcome
  | _, st, [] => ERes.ok Outcome.normal st
  | env, st, Stmt.exprStmt e :: rest =>
    match evalExpr recur fs evalImports scope env st e with
    | ERes.err er st2 => ERes.err er st2
    | ERes.ok (ExprRes.thrown m, _) st2 => ERes.ok (Outcome.thrown m) st2
    | ERes.ok (ExprRes.val _, env2) st2 => runStmts recur fs evalImports scope env2 st2 rest
  | env, st, Stmt.ret e :: _ =>
    match evalExpr recur fs evalImports scope env st e with
    | ERes.err er st2 => ERes.err er st2
    | ERes.ok (ExprRes.thrown m, _) st2 => ERes.ok (Outcome.thrown m) st2
    | ERes.ok (ExprRes.val v, _) st2 => ERes.ok (Outcome.returned v) st2
  | env, st, Stmt.constDecl n e :: rest =>
    match evalExpr recur fs evalImports scope env st e with
    | ERes.err er st2 => ERes.err er st2
    | ERes.ok (ExprRes.thrown m, _) st2 => ERes.ok (Outcome.thrown m) st2
    | ERes.ok (ExprRes.val v, env2) st2 =>
      runStmts recur fs evalImports scope { env2 with locals := alset env2.locals n v } st2 rest
  | _, st, Stmt.throwStmt m :: _ => ERes.ok (Outcome.thrown m) st

/-- Register the import records of one `import` declaration's
specifiers, in order (engine.ts lines 489-523); the RAW source string
is passed as the imported namespace, `registerValueImport` normalizes
it. -/
def registerSpecifiers (st : EngineState) (fileName : String)
    (specifiers : List ImportSpec) (source : String) (isBuiltIn : Bool) : EngineState :=
  specifiers.foldl
    (fun acc sp =>
      match sp with
      | ImportSpec.named localName imported =>
        registerValueImport acc fileName localName (ImportKey.name imported) source isBuiltIn
      | ImportSpec.defaultSpec localName =>
        registerValueImport acc fileName localName ImportKey.defaultExport source isBuiltIn
      | ImportSpec.namespaceSpec localName =>
        registerValueImport acc fileName localName ImportKey.namespaceExport source isBuiltIn)
    st

/-- Mark a namespace as being evaluated:
`namespaces.set(importedNamespace, new Map())` (engine.ts line 481). -/
def markNamespace (st : EngineState) (t : String) : EngineState :=
  { st with namespaces := alset st.namespaces t [] }

/-- The statement visitors (babel's traversal of the program body after
the `Program`-enter insertions of `phaseA`):

* `ExpressionStatement` (lines 357-368), which also fires on inserted
  registration statements: the last statement becomes a `return`;
* `ImportDeclaration` (lines 471-528): at enter, a user import with
  `evalImports` whose target namespace has no store entry is marked
  with an empty entry and its file is read (a missing file raises)
  and recursively evaluated; then every specifier is registered; at
  exit the declaration is removed.

A `raised` nested failure propagates (the rewrite happens outside the
wrapper's `try`). -/
def transformCells (recur : EvalFn) (fs : FileSystem) (namespace_ : String)
    (evalImports : Bool) : EngineState → List TCell → ERes (List Stmt)
  | st, [] => ERes.ok [] st
  | st, TCell.run s :: rest =>
    let lowered :=
      match s, rest with
      | Stmt.exprStmt e, [] => Stmt.ret e
      | _, _ => s
    match transformCells recur fs namespace_ evalImports st rest with
    | ERes.err e st2 => ERes.err e st2
    | ERes.ok stmts st2 => ERes.ok (lowered :: stmts) st2
  | st, TCell.src (SrcStmt.exprStmt e) :: rest =>
    let lowered :=
      match rest with
      | [] => Stmt.ret e
      | _ :: _ => Stmt.exprStmt e
    match transformCells recur fs namespace_ evalImports st rest with
    | ERes.err er st2 => ERes.err er st2
    | ERes.ok stmts st2 => ERes.ok (lowered :: stmts) st2
  | st, TCell.src (SrcStmt.constDecl n e) :: rest =>
    match transformCells recur fs namespace_ evalImports st rest with
    | ERes.err er st2 => ERes.err er st2
    | ERes.ok stmts st2 => ERes.ok (Stmt.constDecl n e :: stmts) st2
  | st, TCell.src (SrcStmt.throwStmt m) :: rest =>
    match transformCells recur fs namespace_ evalImports st rest with
    | ERes.err er st2 => ERes.err er st2
    | ERes.ok stmts st2 => ERes.ok (Stmt.throwStmt m :: stmts) st2
  | st, TCell.src (SrcStmt.importDecl specifiers source) :: rest =>
    let importedNamespace := normalizeImportPath namespace_ source
    let isBuiltIn := !isAbsolutePath importedNamespace
    let afterEval : ERes JSVal :=
      if !isBuiltIn && evalImports && (alget st.namespaces importedNamespace).isNone then
        let st1 := markNamespace st importedNamespace
        match alget fs importedNamespace with
        | none => ERes.err (EngErr.raised ("ENOENT: " ++ importedNamespace)) st1
        | some prog => recur fs st1 importedNamespace prog evalImports
      else ERes.ok JSVal.undef st
    match afterEval with
    | ERes.err e st2 => ERes.err e st2
    | ERes.ok _ st2 =>
      let st3 := registerSpecifiers st2 namespace_ specifiers source isBuiltIn
      transformCells recur fs namespace_ evalImports st3 rest

/-- One step of `evaluate` (engine.ts lines 66-203), parametric in the
evaluator used for recursive evaluations: rewrite (which performs
the registrations of imports and the recursive evaluations), snapshot the
namespace's values and imports, synthesize the scope, run the wrapped
body, and translate its outcome (`catch` logs to standard error and
yields `undefined`; falling through yields `undefined`). -/
def evalStep (recur : EvalFn) : EvalFn := fun fs st namespace_ prog evalImports =>
  match transformCells recur fs namespace_ evalImports st (phaseA namespace_ prog) with
  | ERes.err e st1 => ERes.err e st1
  | ERes.ok codeTransformed st1 =>
    let ns := (alget st1.namespaces namespace_).getD []
    let nsImports := (alget st1.valueImports namespace_).getD []
    let scope : Scope :=
      { namespace_ := namespace_, bindings := ns,
        imports := buildImportsForScope fs st1 nsImports }
    let env0 : RunEnv := { locals := [], moduleExports := JSVal.stubExports }
    match runStmts recur fs evalImports scope env0 st1 codeTransformed with
    | ERes.err e st2 => ERes.err e st2
    | ERes.ok Outcome.normal st2 => ERes.ok JSVal.undef st2
    | ERes.ok (Outcome.returned v) st2 => ERes.ok v st2
    | ERes.ok (Outcome.thrown m) st2 => ERes.ok JSVal.undef (pushStderr m st2)

/-- `evaluate(namespace, code, evalImports?)`: the exported entry point,
with a fuel bound on the depth of recursive evaluations (the source
recurses without bound; exhausted fuel models non-termination and is
distinct from every JS-level result). -/
def evaluate : Nat → EvalFn
  | 0 => fun _ st _ _ _ => ERes.err EngErr.outOfFuel st
  | fuel + 1 => evalStep (evaluate fuel)

/-- `dynamicImport` (engine.ts lines 264-280), the runtime helper
`import(expr)` is rewritten to; the promise is modelled by its resolved
value.  Here the built-in test is on the NORMALIZED path; a built-in
delegates to the host loader, a user module is optionally re-evaluated
and materialized via `constructNamespaceExport`. -/
def dynamicImport (fuel : Nat) (fs : FileSystem) (st : EngineState)
    (importingNamespace importedNamespace : String) (evalImports : Bool) : ERes JSVal :=
  let importedNamespaceNormalized := normalizeImportPath importingNamespace importedNamespace
  let isBuiltIn := !isAbsolutePath importedNamespaceNormalized
  if isBuiltIn then
    -- the guard makes the specifier non-absolute, on which the loader
    -- is total; the thrown arm is unreachable
    match hostRequire fs importedNamespaceNormalized with
    | ExprRes.val v => ERes.ok v st
    | ExprRes.thrown m => ERes.err (EngErr.raised m) st
  else
    let afterEval : ERes JSVal :=
      if evalImports then
        match alget fs importedNamespaceNormalized with
        | none => ERes.err (EngErr.raised ("ENOENT: " ++ importedNamespaceNormalized)) st
        | some prog => evaluate fuel fs st importedNamespaceNormalized prog evalImports
      else ERes.ok JSVal.undef st
    match afterEval with
    | ERes.err e st2 => ERes.err e st2
    | ERes.ok _ st2 => ERes.ok (constructNamespaceExport st2 importedNamespaceNormalized) st2

/-- The value an `evaluate` call delivers (discarding the final state). -/
def evalResult (fuel : Nat) (fs : FileSystem) (st : EngineState) (namespace_ : String)
    (prog : List SrcStmt) (evalImports : Bool) : Except EngErr JSVal :=
  match evaluate fuel fs st namespace_ prog evalImports with
  | ERes.ok v _ => Except.ok v
  | ERes.err e _ => Except.error e

/-- The engine state after an `evaluate` call (on either outcome). -/
def evalState (fuel : Nat) (fs : FileSystem) (st : EngineState) (namespace_ : String)
    (prog : List SrcStmt) (evalImports : Bool) : EngineState :=
  match evaluate fuel fs st namespace_ prog evalImports with
  | ERes.ok _ st2 => st2
  | ERes.err _ st2 => st2

/-! ## The alternate store module (src/unnamed/part_001)

The repository also ships a second, rewritten store module whose
registration functions CHECK their preconditions; its `objGet(l, k, d)`
helper (from its absent `utils` module) is get-or-lazily-create, which
over immutable state is: read with a default, write the updated inner
lookup back.  Its export lookups map an exported name (or the default
sentinel) to the local identifier string. -/

/-- The two module-level lookups of part_001 (`valuesLookup`,
`exportsLookup`). -/
structure AltState : Type where
  valuesLookup : List (String × List (String × JSVal))
  exportsLookup : List (String × List (ExportKey × String))

/-- `doRegisterValue` (part_001 lines 31-35). -/
def doRegisterValue (st : AltState) (namespace_ key : String) (value : JSVal) :
    JSVal × AltState :=
  let values := (alget st.valuesLookup namespace_).getD []
  let updated := alset st.valuesLookup namespace_ (alset values key value)
  (value, { st with valuesLookup := updated })

/-- `doRegisterExport` (part_001 lines 42-57): throws
`Failed named export due to missing local ...` when no value keyed
`local` exists in the namespace; otherwise records `exported ↦ local`
and returns `exported`. -/
def doRegisterExport (st : AltState) (namespace_ localName exported : String) :
    Except String (String × AltState) :=
  let exportsValues := (alget st.exportsLookup namespace_).getD []
  let values := (alget st.valuesLookup namespace_).getD []
  if (alget values localName).isSome then
    let updated := alset st.exportsLookup namespace_
      (alset exportsValues (ExportKey.name exported) localName)
    Except.ok (exported, { st with exportsLookup := updated })
  else
    Except.error ("Failed named export due to missing local " ++ localName)

/-- `doRegisterDefaultExport` (part_001 lines 59-67): same precondition,
recording under the default-export sentinel. -/
def doRegisterDefaultExport (st : AltState) (namespace_ localName : String) :
    Except String (String × AltState) :=
  let exportsValues := (alget st.exportsLookup namespace_).getD []
  let values := (alget st.valuesLookup namespace_).getD []
  if (alget values localName).isSome then
    let updated := alset st.exportsLookup namespace_
      (alset exportsValues ExportKey.defaultExport localName)
    Except.ok ("Symbol(defaultExport)", { st with exportsLookup := updated })
  else
    Except.error ("Failed default export due to missing local " ++ localName)

/-! ## Require-free fragments

`require(...)` is the one runtime operation that recursively evaluates
WITHOUT the import-enter mark guard; termination of import cycles
(claim C6) is about fragments whose recursion goes through `import`
declarations only. -/

/-- Expressions containing no `require` call. -/
def Expr.requireFree : Expr → Bool
  | Expr.lit _ => true
  | Expr.ident _ => true
  | Expr.add a b => a.requireFree && b.requireFree
  | Expr.member o _ => o.requireFree
  | Expr.assign o _ v => o.requireFree && v.requireFree
  | Expr.requireCall _ => false
  | Expr.registerValueCall _ _ v => v.requireFree

/-- Rewritten statements containing no `require` call. -/
def Stmt.requireFree : Stmt → Bool
  | Stmt.exprStmt e => e.requireFree
  | Stmt.ret e => e.requireFree
  | Stmt.constDecl _ e => e.requireFree
  | Stmt.throwStmt _ => true

/-- Source statements containing no `require` call. -/
def SrcStmt.requireFree : SrcStmt → Bool
  | SrcStmt.exprStmt e => e.requireFree
  | SrcStmt.constDecl _ e => e.requireFree
  | SrcStmt.importDecl _ _ => true
  | SrcStmt.throwStmt _ => true

/-! ## Derived definitions used by the claim theorems -/

/-- The state a computation left behind (also on a failure: the source
mutates its module-level maps in place). -/
def resState {α : Type} : ERes α → EngineState
  | ERes.ok _ st => st
  | ERes.err _ st => st

/-- The computation did not exhaust its fuel, i.e. the source (which
has no fuel) terminates on this path. -/
def notOOF {α : Type} : ERes α → Prop
  | ERes.err EngErr.outOfFuel _ => False
  | _ => True

/-- How many of the given namespace keys have no store entry yet. -/
def unmarkedIn (keys : List String) (st : EngineState) : Nat :=
  (keys.filter (fun k => !(alget st.namespaces k).isSome)).length

/-- The store record of a named import from a user module. -/
def namedUserImport (target n localName : String) : Import :=
  { importedNamespace := target, imported := ImportKey.name n,
    localName := localName, isBuiltIn := false }

/-- Fragment `module.exports = 99`. -/
def moduleExports99 : List SrcStmt :=
  [SrcStmt.exprStmt (Expr.assign (Expr.ident "module") "exports" (Expr.lit (JSVal.num 99)))]

/-- Fragment `module.exports = 7`. -/
def moduleExports7 : List SrcStmt :=
  [SrcStmt.exprStmt (Expr.assign (Expr.ident "module") "exports" (Expr.lit (JSVal.num 7)))]

/-- Fragment `const x = 1;` — it assigns no `module.exports` and
registers no export. -/
def noDefaultProg : List SrcStmt := [SrcStmt.constDecl "x" (Expr.lit (JSVal.num 1))]

/-- A disk holding only `/m/c.js` with the no-default fragment. -/
def fsC1 : FileSystem := [("/m/c.js", noDefaultProg)]

/-- The store after `/m/c.js` itself was evaluated: its binding `x` is
registered, no export is. -/
def stC1 : EngineState := evalState 2 fsC1 emptyState "/m/c.js" noDefaultProg true

/-- Fragment `require('./c.js')`. -/
def requireRel : List SrcStmt :=
  [SrcStmt.exprStmt (Expr.requireCall (Expr.lit (JSVal.str "./c.js")))]

/-- Fragment `require('/m/c.js')`. -/
def requireAbs : List SrcStmt :=
  [SrcStmt.exprStmt (Expr.requireCall (Expr.lit (JSVal.str "/m/c.js")))]

/-- A store in which `/m/c.js` already has the default-export value
`99`, bound at the synthetic key `d0`. -/
def stDefault99 : EngineState :=
  { emptyState with
      namespaces := [("/m/c.js", [("d0", JSVal.num 99)])],
      valueExports := [("/m/c.js",
        [(ExportKey.defaultExport, { exported := ExportKey.defaultExport, localName := "d0" })])] }

/-- A store in which namespace `/m/s.js` has a binding named `module`. -/
def stBindingModule : EngineState :=
  { emptyState with namespaces := [("/m/s.js", [("module", JSVal.num 7)])] }

/-- A store in which `/m/e.js` exports `a` from local `x` and binds
`x` to `1`. -/
def stExportRecord : EngineState :=
  { emptyState with
      namespaces := [("/m/e.js", [("x", JSVal.num 1)])],
      valueExports := [("/m/e.js",
        [(ExportKey.name "a", { exported := ExportKey.name "a", localName := "x" })])] }

/-- File `/m/A.js` of the import cycle: `import { b } from './B.js'; const a = 1`. -/
def cycleProgA : List SrcStmt :=
  [SrcStmt.importDecl [ImportSpec.named "b" "b"] "./B.js",
   SrcStmt.constDecl "a" (Expr.lit (JSVal.num 1))]

/-- File `/m/B.js` of the import cycle: `import { a } from './A.js'; const b = 2`. -/
def cycleProgB : List SrcStmt :=
  [SrcStmt.importDecl [ImportSpec.named "a" "a"] "./A.js",
   SrcStmt.constDecl "b" (Expr.lit (JSVal.num 2))]

/-- Fragment `import fs from 'fs'`. -/
def importFsProg : List SrcStmt := [SrcStmt.importDecl [ImportSpec.defaultSpec "fs"] "fs"]

/-- A scope with the name `module` present in both the binding and the
resolved-import layers, and `y` only in the import layer. -/
def scopeLayered : Scope :=
  { namespace_ := "/m/s.js",
    bindings := [("module", JSVal.num 7)],
    imports := [("module", JSVal.num 8), ("y", JSVal.num 4)] }

/-- Working-list cells containing no `require` call. -/
def TCell.requireFree : TCell → Bool
  | TCell.src s => s.requireFree
  | TCell.run s => s.requireFree

/-- Namespace marks only ever accumulate: every namespace with a store
entry in `st` still has one in `st2`. -/
def nsMono (st st2 : EngineState) : Prop :=
  ∀ k, (alget st.namespaces k).isSome = true → (alget st2.namespaces k).isSome = true

/-! ## Map lemmas -/

/-- Setting a key makes it readable. -/
theorem alget_alset_self {α β : Type} [DecidableEq α] (m : List (α × β)) (k : α) (v : β) :
    alget (alset m k v) k = some v := by
  induction m with
  | nil => simp [alset, alget]
  | cons p rest ih =>
    obtain ⟨k1, v1⟩ := p
    by_cases h : k1 = k
    · subst h; simp [alset, alget]
    · simp [alset, alget, h, ih]

/-- Setting one key does not hide another. -/
theorem alget_alset_isSome {α β : Type} [DecidableEq α] (m : List (α × β)) (k k2 : α) (v : β)
    (h : (alget m k).isSome = true) : (alget (alset m k2 v) k).isSome = true := by
  induction m with
  | nil => simp [alget] at h
  | cons p rest ih =>
    obtain ⟨k1, v1⟩ := p
    by_cases hk : k1 = k2
    · subst hk
      by_cases hk2 : k1 = k
      · subst hk2; simp [alset, alget]
      · simp [alset, alget, hk2] at h ⊢
        exact h
    · by_cases hk2 : k1 = k
      · subst hk2; simp [alset, alget, hk]
      · simp [alset, alget, hk, hk2] at h ⊢
        exact ih h

/-! ## Claim C4 -/

/-- C4 (counterexample): the claim predicts `evaluate(ns, "const a = 5;")`
returns `undefined`; on the code it returns `5`: the rewriter appends
`registerValue(ns, "a", a)` after the declaration, babel traverses the
inserted statement too, so the trailing-expression visitor turns it into
`return registerValue(ns, "a", a)`, whose value is the bound `5`. -/
theorem claim_C4_counterexample :
    evalResult 1 [] emptyState "/tmp/a.js" [SrcStmt.constDecl "a" (Expr.lit (JSVal.num 5))] false
      = Except.ok (JSVal.num 5)
    ∧ (Except.ok (JSVal.num 5) : Except EngErr JSVal) ≠ Except.ok JSVal.undef :=
  ⟨rfl, fun h => nomatch h⟩

/-- C4 (amended): `evaluate` returns the value of the TRANSFORMED
program's trailing expression statement: `1 + 2` returns `3`;
`const a = 5;` returns `5`, because the inserted registration call is
the trailing expression statement after the rewrite; `undefined`
results only when the transformed program does not end in an
expression statement (e.g. a bare side-effect import, which the
rewrite removes). -/
theorem claim_C4 :
    evalResult 1 [] emptyState "/tmp/a.js"
      [SrcStmt.exprStmt (Expr.add (Expr.lit (JSVal.num 1)) (Expr.lit (JSVal.num 2)))] false
      = Except.ok (JSVal.num 3)
    ∧ evalResult 1 [] emptyState "/tmp/a.js"
        [SrcStmt.constDecl "a" (Expr.lit (JSVal.num 5))] false
      = Except.ok (JSVal.num 5)
    ∧ (∀ st : EngineState,
        evalResult 1 [] st "/tmp/a.js" [SrcStmt.importDecl [] "fs"] false
        = Except.ok JSVal.undef) :=
  ⟨rfl, rfl, fun _ => rfl⟩

/-! ## Claim C10 -/

/-- C10: a property read `exports.p` goes through the exports-stub
proxy's `get` trap, which searches the namespace's Export records for
the first whose local name equals `p` and returns that RECORD (the
`{ exported, local }` object), or `undefined` when none matches; it
never dereferences the record to the value bound at the local. -/
theorem claim_C10 (st : EngineState) (namespace_ p : String) (env : RunEnv) :
    (∀ q, ((alget st.valueExports namespace_).getD []).find? (fun r => r.2.localName == p) = some q →
        memberRead st namespace_ env JSVal.stubExports p = ExprRes.val (exportToVal q.2)
        ∧ exportToVal q.2 = JSVal.obj
            [("exported", match q.2.exported with
              | ExportKey.name s => JSVal.str s
              | ExportKey.defaultExport => JSVal.sym "[[defaultExport]]"),
             ("local", JSVal.str q.2.localName)])
    ∧ (((alget st.valueExports namespace_).getD []).find? (fun r => r.2.localName == p) = none →
        memberRead st namespace_ env JSVal.stubExports p = ExprRes.val JSVal.undef) := by
  constructor
  · intro q hq
    constructor
    · simp only [memberRead]
      rw [hq]
    · rfl
  · intro hq
    simp only [memberRead]
    rw [hq]

/-- C10 witness: on a store exporting `a` from local `x` (bound to `1`),
`exports.x` reads back the record `{ exported: 'a', local: 'x' }`. -/
theorem claim_C10_witness :
    memberRead stExportRecord "/m/e.js" { locals := [], moduleExports := JSVal.stubExports }
      JSVal.stubExports "x"
      = ExprRes.val (JSVal.obj [("exported", JSVal.str "a"), ("local", JSVal.str "x")]) := by
  have h := (claim_C10 stExportRecord "/m/e.js" "x"
    { locals := [], moduleExports := JSVal.stubExports }).1
    (ExportKey.name "a", { exported := ExportKey.name "a", localName := "x" }) rfl
  rw [h.1, h.2]

/-! ## Claim C9 -/

/-- C9: whenever the wrapped body of a fragment throws a user
exception, `evaluate` catches it inside the wrapper, appends the
diagnostic to standard error, and returns `undefined` to the caller
instead of propagating the exception. -/
theorem claim_C9 (fuel : Nat) (fs : FileSystem) (st st1 st2 : EngineState)
    (namespace_ : String) (prog : List SrcStmt) (evalImports : Bool)
    (stmts : List Stmt) (d : String)
    (htrans : transformCells (evaluate fuel) fs namespace_ evalImports st (phaseA namespace_ prog)
      = ERes.ok stmts st1)
    (hrun : runStmts (evaluate fuel) fs evalImports
      { namespace_ := namespace_,
        bindings := (alget st1.namespaces namespace_).getD [],
        imports := buildImportsForScope fs st1 ((alget st1.valueImports namespace_).getD []) }
      { locals := [], moduleExports := JSVal.stubExports } st1 stmts
      = ERes.ok (Outcome.thrown d) st2) :
    evaluate (fuel + 1) fs st namespace_ prog evalImports
      = ERes.ok JSVal.undef (pushStderr d st2) := by
  show evalStep (evaluate fuel) fs st namespace_ prog evalImports = _
  unfold evalStep
  rw [htrans]
  show (match runStmts (evaluate fuel) fs evalImports
      { namespace_ := namespace_, bindings := (alget st1.namespaces namespace_).getD [],
        imports := buildImportsForScope fs st1 ((alget st1.valueImports namespace_).getD []) }
      { locals := [], moduleExports := JSVal.stubExports } st1 stmts with
    | ERes.err e st2 => ERes.err e st2
    | ERes.ok Outcome.normal st2 => ERes.ok JSVal.undef st2
    | ERes.ok (Outcome.returned v) st2 => ERes.ok v st2
    | ERes.ok (Outcome.thrown m) st2 => ERes.ok JSVal.undef (pushStderr m st2))
    = ERes.ok JSVal.undef (pushStderr d st2)
  rw [hrun]

/-- C9 witness: a bare `throw 'boom'` fragment returns `undefined` with
the diagnostic on standard error. -/
theorem claim_C9_witness :
    evaluate 1 [] emptyState "/m/t.js" [SrcStmt.throwStmt "boom"] false
      = ERes.ok JSVal.undef (pushStderr "boom" emptyState) :=
  claim_C9 0 [] emptyState emptyState emptyState "/m/t.js" [SrcStmt.throwStmt "boom"] false
    [Stmt.throwStmt "boom"] "boom" rfl rfl

/-! ## Claim C3 -/

/-- C3 (counterexample): in engine.ts, registering an export whose
local name has no binding does NOT fail: on the empty store (no
binding `x` anywhere) `registerValueExport` records the named export
and `registerDefaultValueExport` the default export; no
missing-local error exists on this path, so nothing can propagate. -/
theorem claim_C3_counterexample :
    alget emptyState.namespaces "/m/x.js" = none
    ∧ alget ((alget (registerValueExport emptyState "/m/x.js" "x" (ExportKey.name "x")).valueExports
        "/m/x.js").getD []) (ExportKey.name "x")
      = some { exported := ExportKey.name "x", localName := "x" }
    ∧ alget ((alget (registerDefaultValueExport emptyState "/m/x.js" "x").valueExports
        "/m/x.js").getD []) ExportKey.defaultExport
      = some { exported := ExportKey.defaultExport, localName := "x" } :=
  ⟨rfl, rfl, rfl⟩

/-- C3 (amended): engine.ts's export registration never fails — the
export is recorded whether or not a binding with the local name exists
(a missing local shows only as `undefined` at consumption); the
registration-time missing-local failure lives in the repository's
alternate store module, whose `doRegisterExport` and
`doRegisterDefaultExport` throw `Failed ... due to missing local`
exactly when no value with that local name exists in the namespace. -/
theorem claim_C3 (namespace_ localName exported : String) :
    (∀ st : EngineState,
        alget ((alget (registerValueExport st namespace_ localName (ExportKey.name exported)).valueExports
          namespace_).getD []) (ExportKey.name exported)
        = some { exported := ExportKey.name exported, localName := localName })
    ∧ (∀ st1 : AltState, alget ((alget st1.valuesLookup namespace_).getD []) localName = none →
        doRegisterExport st1 namespace_ localName exported
        = Except.error ("Failed named export due to missing local " ++ localName))
    ∧ (∀ st1 : AltState, alget ((alget st1.valuesLookup namespace_).getD []) localName = none →
        doRegisterDefaultExport st1 namespace_ localName
        = Except.error ("Failed default export due to missing local " ++ localName)) := by
  refine ⟨fun st => ?_, fun st1 h => ?_, fun st1 h => ?_⟩
  · simp [registerValueExport, alget_alset_self]
  · simp [doRegisterExport, h]
  · simp [doRegisterDefaultExport, h]

/-- C3 witness: the engine records export `w` on the empty store while
both alternate-store registrations fail on their empty store. -/
theorem claim_C3_witness :
    alget ((alget (registerValueExport emptyState "/m/w.js" "w" (ExportKey.name "w")).valueExports
      "/m/w.js").getD []) (ExportKey.name "w")
      = some { exported := ExportKey.name "w", localName := "w" }
    ∧ doRegisterExport { valuesLookup := [], exportsLookup := [] } "/m/w.js" "w" "w"
      = Except.error "Failed named export due to missing local w"
    ∧ doRegisterDefaultExport { valuesLookup := [], exportsLookup := [] } "/m/w.js" "w"
      = Except.error "Failed default export due to missing local w" :=
  ⟨(claim_C3 "/m/w.js" "w" "w").1 emptyState,
   (claim_C3 "/m/w.js" "w" "w").2.1 { valuesLookup := [], exportsLookup := [] } rfl,
   (claim_C3 "/m/w.js" "w" "w").2.2 { valuesLookup := [], exportsLookup := [] } rfl⟩

/-! ## Claim C2 -/

/-- C2 (counterexample): with a namespace binding named `module`,
reading `module` in a fragment yields the binding's value `7`, not the
CJS `module` stub — the CJS-stub layer does NOT beat the
namespace-binding layer as the claim states. -/
theorem claim_C2_counterexample :
    evalResult 1 [] stBindingModule "/m/s.js" [SrcStmt.exprStmt (Expr.ident "module")] false
      = Except.ok (JSVal.num 7)
    ∧ scopeLookup { namespace_ := "/m/s.js", bindings := [("module", JSVal.num 7)], imports := [] }
        "module" ≠ some JSVal.stubModule :=
  ⟨rfl, fun h => nomatch h⟩

/-- C2 (amended): name lookup resolves through the four layers in the
precedence the `with`-nesting and context spread actually give:
namespace bindings beat resolved imports, which beat the CJS stubs,
which beat host globals (an IIFE-local `const` of the fragment itself
beats them all); for a name in several layers, the higher layer's
value is the one seen during execution. -/
theorem claim_C2 (scope : Scope) (name : String) :
    (∀ v, alget scope.bindings name = some v → scopeLookup scope name = some v)
    ∧ (alget scope.bindings name = none → ∀ v, alget scope.imports name = some v →
        scopeLookup scope name = some v)
    ∧ (alget scope.bindings name = none → alget scope.imports name = none →
        ∀ v, alget (cjsStub scope.namespace_) name = some v → scopeLookup scope name = some v)
    ∧ (alget scope.bindings name = none → alget scope.imports name = none →
        alget (cjsStub scope.namespace_) name = none →
        scopeLookup scope name = alget hostGlobals name)
    ∧ (∀ (recur : EvalFn) (fs : FileSystem) (ei : Bool) (env : RunEnv) (st : EngineState) v,
        alget env.locals name = none → scopeLookup scope name = some v →
        evalExpr recur fs ei scope env st (Expr.ident name) = ERes.ok (ExprRes.val v, env) st)
    ∧ (∀ (recur : EvalFn) (fs : FileSystem) (ei : Bool) (env : RunEnv) (st : EngineState) v,
        alget env.locals name = some v →
        evalExpr recur fs ei scope env st (Expr.ident name) = ERes.ok (ExprRes.val v, env) st) := by
  refine ⟨fun v hb => ?_, fun hb v hi => ?_, fun hb hi v hc => ?_, fun hb hi hc => ?_,
    fun recur fs ei env st v hl hs => ?_, fun recur fs ei env st v hl => ?_⟩
  · simp [scopeLookup, hb]
  · simp [scopeLookup, hb, hi]
  · simp [scopeLookup, hb, hi, hc]
  · simp [scopeLookup, hb, hi, hc]
  · simp [evalExpr, hl, hs]
  · simp [evalExpr, hl]

/-- C2 witness: namespace binding `module ↦ 7` wins over both the
stored import `module ↦ 8` and the CJS stub; the import layer wins for
`y`; the stubs win for `require`; the globals serve `console`. -/
theorem claim_C2_witness :
    scopeLookup scopeLayered "module" = some (JSVal.num 7)
    ∧ scopeLookup scopeLayered "y" = some (JSVal.num 4)
    ∧ scopeLookup scopeLayered "require" = some JSVal.stubRequire
    ∧ scopeLookup scopeLayered "console" = some (JSVal.hostModule "console") := by
  refine ⟨?_, ?_, ?_, ?_⟩
  · exact (claim_C2 scopeLayered "module").1 (JSVal.num 7) rfl
  · exact (claim_C2 scopeLayered "y").2.1 rfl (JSVal.num 4) rfl
  · exact (claim_C2 scopeLayered "require").2.2.1 rfl rfl JSVal.stubRequire rfl
  · exact ((claim_C2 scopeLayered "console").2.2.2.1 rfl rfl rfl).trans rfl

/-! ## Claim C7 -/

/-- C7: consuming a named import from a user module at scope-synthesis
time walks: target's Exports by the imported name → that export's
local → target's Bindings by that local; whichever step finds nothing,
the delivered value is `undefined` and no error arises (the scope
value is total); when every step succeeds the bound value is
delivered, and `nsImportsForScope` carries it under the local name. -/
theorem claim_C7 (fs : FileSystem) (st : EngineState) (target n localName : String) :
    ((alget st.valueExports target = none →
        importScopeValue fs st (namedUserImport target n localName) = JSVal.undef)
    ∧ (∀ m, alget st.valueExports target = some m → alget m (ExportKey.name n) = none →
        importScopeValue fs st (namedUserImport target n localName) = JSVal.undef)
    ∧ (∀ m e, alget st.valueExports target = some m → alget m (ExportKey.name n) = some e →
        alget st.namespaces target = none →
        importScopeValue fs st (namedUserImport target n localName) = JSVal.undef)
    ∧ (∀ m e vals, alget st.valueExports target = some m → alget m (ExportKey.name n) = some e →
        alget st.namespaces target = some vals → alget vals e.localName = none →
        importScopeValue fs st (namedUserImport target n localName) = JSVal.undef)
    ∧ (∀ m e vals v, alget st.valueExports target = some m → alget m (ExportKey.name n) = some e →
        alget st.namespaces target = some vals → alget vals e.localName = some v →
        importScopeValue fs st (namedUserImport target n localName) = v))
    ∧ alget (buildImportsForScope fs st [(localName, namedUserImport target n localName)]) localName
      = some (importScopeValue fs st (namedUserImport target n localName)) := by
  constructor
  · refine ⟨fun h1 => ?_, fun m h1 h2 => ?_, fun m e h1 h2 h3 => ?_,
      fun m e vals h1 h2 h3 h4 => ?_, fun m e vals v h1 h2 h3 h4 => ?_⟩
    · simp [importScopeValue, namedUserImport, h1]
    · simp [importScopeValue, namedUserImport, h1, h2]
    · simp [importScopeValue, namedUserImport, h1, h2, h3]
    · simp [importScopeValue, namedUserImport, h1, h2, h3, h4]
    · simp [importScopeValue, namedUserImport, h1, h2, h3, h4]
  · simp [buildImportsForScope, alget]

/-- C7 witness: on a store exporting `a` from local `x` with `x ↦ 1`,
the import of `a` delivers `1`; the import of the absent `zz` delivers
`undefined`. -/
theorem claim_C7_witness :
    importScopeValue [] stExportRecord (namedUserImport "/m/e.js" "a" "imp") = JSVal.num 1
    ∧ importScopeValue [] stExportRecord (namedUserImport "/m/e.js" "zz" "imp") = JSVal.undef := by
  constructor
  · exact (claim_C7 [] stExportRecord "/m/e.js" "a" "imp").1.2.2.2.2
      [(ExportKey.name "a", { exported := ExportKey.name "a", localName := "x" })]
      { exported := ExportKey.name "a", localName := "x" }
      [("x", JSVal.num 1)] (JSVal.num 1) rfl rfl rfl rfl
  · exact (claim_C7 [] stExportRecord "/m/e.js" "zz" "imp").1.2.1
      [(ExportKey.name "a", { exported := ExportKey.name "a", localName := "x" })] rfl rfl

/-! ## Claim C5 -/

/-- C5 (counterexample): `require('./c.js')` from `/m/d.js` resolves to
the absolute path `/m/c.js`, yet `requireCustom` classifies the module
by the RAW specifier and so treats it as built-in: with the disk file
assigning `module.exports = 7` while the store's default export is
`99`, the relative specifier returns the host-executed `7`, whereas
the same call with the raw absolute specifier (the claimed resolved
test would send both here) serves the store's `99`. -/
theorem claim_C5_counterexample :
    isAbsolutePath (normalizeImportPath "/m/d.js" "./c.js") = true
    ∧ requireCustom (evaluate 1) [("/m/c.js", moduleExports7)] stDefault99 "/m/d.js" "./c.js" false
      = ERes.ok (ExprRes.val (JSVal.num 7)) stDefault99
    ∧ requireCustom (evaluate 1) [("/m/c.js", moduleExports7)] stDefault99 "/m/d.js" "/m/c.js" false
      = ERes.ok (ExprRes.val (JSVal.num 99)) stDefault99
    ∧ (JSVal.num 7 = JSVal.num 99 → False) :=
  ⟨rfl, rfl, rfl, fun h => by simp at h⟩

/-- C5 (amended): the import-declaration site and `dynamicImport` test
the string obtained AFTER resolution (built-in iff the resolved string
is not an absolute path), but `requireCustom` tests the RAW specifier
BEFORE resolution: any non-absolute require specifier is delegated to
the host loader on the resolved path, regardless of what it resolves
to. -/
theorem claim_C5 :
    (∀ (recur : EvalFn) (fs : FileSystem) (st : EngineState) (ns spec : String) (ei : Bool),
        isAbsolutePath spec = false →
        requireCustom recur fs st ns spec ei
          = ERes.ok (hostRequire fs (normalizeImportPath ns spec)) st)
    ∧ (∀ (recur : EvalFn) (fs : FileSystem) (st : EngineState) (ns src : String)
        (specs : List ImportSpec),
        transformCells recur fs ns false st [TCell.src (SrcStmt.importDecl specs src)]
          = ERes.ok [] (registerSpecifiers st ns specs src
              (!isAbsolutePath (normalizeImportPath ns src))))
    ∧ (∀ (st : EngineState) (ns l imported src : String) (b : Bool),
        alget ((alget (registerValueImport st ns l (ImportKey.name imported) src b).valueImports
          ns).getD []) l
        = some { imported := ImportKey.name imported, localName := l,
                 importedNamespace := normalizeImportPath ns src, isBuiltIn := b })
    ∧ (∀ (fuel : Nat) (fs : FileSystem) (st : EngineState) (ns spec : String) (ei : Bool),
        isAbsolutePath (normalizeImportPath ns spec) = false →
        dynamicImport fuel fs st ns spec ei
          = ERes.ok (JSVal.hostModule (normalizeImportPath ns spec)) st)
    ∧ (∀ (fuel : Nat) (fs : FileSystem) (st : EngineState) (ns spec : String),
        isAbsolutePath (normalizeImportPath ns spec) = true →
        dynamicImport fuel fs st ns spec false
          = ERes.ok (constructNamespaceExport st (normalizeImportPath ns spec)) st) := by
  refine ⟨fun recur fs st ns spec ei h => ?_, fun recur fs st ns src specs => ?_,
    fun st ns l imported src b => ?_, fun fuel fs st ns spec ei h => ?_,
    fun fuel fs st ns spec h => ?_⟩
  · simp [requireCustom, h]
  · simp [transformCells]
  · simp [registerValueImport, alget_alset_self]
  · simp [dynamicImport, hostRequire, h]
  · simp [dynamicImport, h]

/-- C5 witness: the relative specifier `./c.js` resolving to `/m/c.js`
goes to the host loader in `require`, while the same resolved string
keeps a dynamic import on the user-module path. -/
theorem claim_C5_witness :
    requireCustom (evaluate 0) [] emptyState "/m/d.js" "./c.js" false
      = ERes.ok (hostRequire [] "/m/c.js") emptyState
    ∧ alget ((alget (registerValueImport emptyState "/m/d.js" "v" (ImportKey.name "v")
        "./c.js" false).valueImports "/m/d.js").getD []) "v"
      = some { imported := ImportKey.name "v", localName := "v",
               importedNamespace := "/m/c.js", isBuiltIn := false }
    ∧ dynamicImport 0 [] emptyState "/m/d.js" "fs" false
      = ERes.ok (JSVal.hostModule "fs") emptyState
    ∧ dynamicImport 0 [] emptyState "/m/d.js" "./c.js" false
      = ERes.ok (constructNamespaceExport emptyState "/m/c.js") emptyState := by
  refine ⟨claim_C5.1 (evaluate 0) [] emptyState "/m/d.js" "./c.js" false rfl, ?_,
    claim_C5.2.2.2.1 0 [] emptyState "/m/d.js" "fs" false rfl,
    claim_C5.2.2.2.2 0 [] emptyState "/m/d.js" "./c.js" rfl⟩
  exact claim_C5.2.2.1 emptyState "/m/d.js" "v" "v" "./c.js" false

/-! ## Claim C8 -/

/-- C8: a built-in import never touches the store under the specifier
key and is delivered from the host loader at the use site: evaluating
`import fs from 'fs'` leaves `namespaces['fs']` and
`valueExports['fs']` exactly as they were (for EVERY starting store,
so it is never recursively evaluated), records the import under the
IMPORTING namespace with the built-in flag, synthesizes the scope
value by invoking the host loader (done anew inside each `evaluate`
call), and a use of `fs` delivers the host's module object. -/
theorem claim_C8 (st : EngineState) :
    alget (evalState 1 [] st "/m/n.js" importFsProg true).namespaces "fs"
      = alget st.namespaces "fs"
    ∧ alget (evalState 1 [] st "/m/n.js" importFsProg true).valueExports "fs"
      = alget st.valueExports "fs"
    ∧ alget ((alget (evalState 1 [] st "/m/n.js" importFsProg true).valueImports
        "/m/n.js").getD []) "fs"
      = some { imported := ImportKey.defaultExport, localName := "fs",
               importedNamespace := "fs", isBuiltIn := true }
    ∧ (∀ (fs2 : FileSystem) (st2 : EngineState) (imp : Import), imp.isBuiltIn = true →
        imp.imported = ImportKey.defaultExport →
        isAbsolutePath imp.importedNamespace = false →
        importScopeValue fs2 st2 imp = JSVal.hostModule imp.importedNamespace
        ∧ hostRequire fs2 imp.importedNamespace
          = ExprRes.val (JSVal.hostModule imp.importedNamespace))
    ∧ evalResult 1 [] emptyState "/m/n.js"
        [SrcStmt.importDecl [ImportSpec.defaultSpec "fs"] "fs", SrcStmt.exprStmt (Expr.ident "fs")]
        true = Except.ok (JSVal.hostModule "fs") := by
  refine ⟨?_, ?_, ?_, fun fs2 st2 imp h1 h2 h3 => ?_, rfl⟩
  · show alget (registerValueImport st "/m/n.js" "fs" ImportKey.defaultExport "fs"
      true).namespaces "fs" = alget st.namespaces "fs"
    rfl
  · show alget (registerValueImport st "/m/n.js" "fs" ImportKey.defaultExport "fs"
      true).valueExports "fs" = alget st.valueExports "fs"
    rfl
  · show alget ((alget (registerValueImport st "/m/n.js" "fs" ImportKey.defaultExport "fs"
      true).valueImports "/m/n.js").getD []) "fs" = _
    simp only [registerValueImport, alget_alset_self, Option.getD_some]
    rfl
  · constructor
    · simp [importScopeValue, hostRequire, h1, h2, h3]
    · simp [hostRequire, h3]

/-- C8 witness: the empty store is unchanged under the `fs` keys and
the built-in default import of `fs` resolves to the host module, the
value the host loader delivers. -/
theorem claim_C8_witness :
    alget (evalState 1 [] emptyState "/m/n.js" importFsProg true).namespaces "fs" = none
    ∧ alget (evalState 1 [] emptyState "/m/n.js" importFsProg true).valueExports "fs" = none
    ∧ importScopeValue [] emptyState
        { imported := ImportKey.defaultExport, localName := "fs",
          importedNamespace := "fs", isBuiltIn := true } = JSVal.hostModule "fs"
    ∧ hostRequire [] "fs" = ExprRes.val (JSVal.hostModule "fs") := by
  refine ⟨(claim_C8 emptyState).1.trans rfl, ((claim_C8 emptyState).2.1).trans rfl, ?_, ?_⟩
  · exact ((claim_C8 emptyState).2.2.2.1 [] emptyState
      { imported := ImportKey.defaultExport, localName := "fs",
        importedNamespace := "fs", isBuiltIn := true } rfl rfl rfl).1
  · exact ((claim_C8 emptyState).2.2.2.1 [] emptyState
      { imported := ImportKey.defaultExport, localName := "fs",
        importedNamespace := "fs", isBuiltIn := true } rfl rfl rfl).2

/-! ## Claim C1 -/

/-- C1 (counterexample): when the target namespace registers NO
default export, `require('./c.js')` in `/m/d.js` with `evalImports`
enabled does NOT return `undefined` as the claim's tail asserts: the
relative specifier routes through the host loader, which executes the
disk file `/m/c.js` (content `const x = 1;`) as a plain CommonJS
module and returns its untouched empty exports object `{}`. -/
theorem claim_C1_counterexample :
    alget stC1.valueExports "/m/c.js" = none
    ∧ evalResult 2 fsC1 stC1 "/m/d.js" requireRel true = Except.ok (JSVal.obj [])
    ∧ (Except.ok (JSVal.obj []) : Except EngErr JSVal) ≠ Except.ok JSVal.undef :=
  ⟨rfl, rfl, fun h => nomatch h⟩

/-- C1 (amended): the round trip itself holds — after `/m/c.js` (whose
disk file assigns `module.exports = V`) is evaluated, requiring it
from `/m/d.js` with `evalImports` returns V — but through two distinct
mechanisms: the relative specifier `./c.js` is classified by the RAW
string as built-in and served by the HOST loader executing the disk
file (the store is bypassed), while the absolute specifier is served
from the store after re-evaluation.  Only the absolute form returns
`undefined` when the target registers no default export; the relative
form then returns the host's empty exports object `{}`. -/
theorem claim_C1 (V : JSVal) :
    evalResult 2 [("/m/c.js",
        [SrcStmt.exprStmt (Expr.assign (Expr.ident "module") "exports" (Expr.lit V))])]
      emptyState "/m/d.js" requireRel true = Except.ok V
    ∧ evalResult 2 [("/m/c.js",
        [SrcStmt.exprStmt (Expr.assign (Expr.ident "module") "exports" (Expr.lit V))])]
      emptyState "/m/d.js" requireAbs true = Except.ok V
    ∧ evalResult 2 [("/m/c.js", noDefaultProg)]
        emptyState "/m/d.js" requireAbs true = Except.ok JSVal.undef
    ∧ evalResult 2 [("/m/c.js", noDefaultProg)]
        emptyState "/m/d.js" requireRel true = Except.ok (JSVal.obj []) :=
  ⟨rfl, rfl, rfl, rfl⟩

/-! ## Termination of cyclic recursive evaluation (claim C6)

The source recurses into `evaluate` at import-enter only for an
unmarked target, marking it first; `require` has no such guard, so the
statements considered are the require-free ones.  The development
below shows marks only accumulate, that a require-free run phase
cannot fail at all, and that recursion depth is bounded by the number
of unmarked files, so fuel `|files| + 1` never runs out. -/

/-- Setting a different key leaves a key's entry untouched. -/
theorem alget_alset_ne {α β : Type} [DecidableEq α] (m : List (α × β)) (k k2 : α) (v : β)
    (h : k2 ≠ k) : alget (alset m k2 v) k = alget m k := by
  induction m with
  | nil => simp [alset, alget, h]
  | cons p rest ih =>
    obtain ⟨k1, v1⟩ := p
    by_cases hk : k1 = k2
    · subst hk; simp [alset, alget, h]
    · simp [alset, alget, hk, ih]

/-- A pointwise implication between filters bounds their lengths. -/
theorem filter_length_mono {α : Type} (l : List α) (p q : α → Bool)
    (h : ∀ a, p a = true → q a = true) :
    (l.filter p).length ≤ (l.filter q).length := by
  induction l with
  | nil => simp
  | cons a rest ih =>
    by_cases hp : p a = true
    · simp [List.filter, hp, h a hp]; exact ih
    · simp only [List.filter, Bool.not_eq_true] at hp ⊢
      rw [hp]
      cases hq : q a
      · exact ih
      · simp only [List.length_cons]
        exact Nat.le_succ_of_le ih

/-- Accumulating marks never increases the unmarked count. -/
theorem unmarkedIn_mono_le (keys : List String) (st st2 : EngineState) (h : nsMono st st2) :
    unmarkedIn keys st2 ≤ unmarkedIn keys st := by
  refine filter_length_mono keys _ _ (fun k hk => ?_)
  cases h2 : (alget st.namespaces k).isSome
  · simp [h2]
  · have := h k h2
    simp [this] at hk

/-- The unmarked count never exceeds the number of files. -/
theorem unmarkedIn_le_length (keys : List String) (st : EngineState) :
    unmarkedIn keys st ≤ keys.length :=
  List.length_filter_le _ _

/-- Marking an unmarked file strictly decreases the unmarked count. -/
theorem unmarkedIn_mark_lt (keys : List String) (st : EngineState) (t : String)
    (ht : t ∈ keys) (hu : (alget st.namespaces t).isSome = false) :
    unmarkedIn keys (markNamespace st t) < unmarkedIn keys st := by
  induction keys with
  | nil => cases ht
  | cons k rest ih =>
    have hrest_le : unmarkedIn rest (markNamespace st t) ≤ unmarkedIn rest st := by
      refine filter_length_mono rest _ _ (fun a ha => ?_)
      cases h2 : (alget st.namespaces a).isSome
      · simp [h2]
      · have hmk : (alget (markNamespace st t).namespaces a).isSome = true :=
          alget_alset_isSome _ _ _ _ h2
        simp [hmk] at ha
    by_cases hk : k = t
    · subst hk
      have h1 : (alget (alset st.namespaces k []) k).isSome = true := by
        rw [alget_alset_self]; rfl
      simp only [unmarkedIn, markNamespace, List.filter, h1, hu, Bool.not_true, Bool.not_false]
      exact Nat.lt_succ_of_le hrest_le
    · have htr : t ∈ rest := by
        cases ht with
        | head => exact absurd rfl hk
        | tail _ h => exact h
      have hne : t ≠ k := fun he => hk he.symm
      have heq : alget (alset st.namespaces t []) k = alget st.namespaces k :=
        alget_alset_ne _ _ _ _ hne
      simp only [unmarkedIn, markNamespace, List.filter, heq]
      cases h2 : (alget st.namespaces k).isSome
      · simp only [Bool.not_false, List.length_cons]
        exact Nat.succ_lt_succ (ih htr)
      · simp only [Bool.not_true]
        exact ih htr

/-- Reflexivity of mark accumulation. -/
theorem nsMono_refl (st : EngineState) : nsMono st st := fun _ h => h

/-- Transitivity of mark accumulation. -/
theorem nsMono_trans {st1 st2 st3 : EngineState} (h1 : nsMono st1 st2) (h2 : nsMono st2 st3) :
    nsMono st1 st3 := fun k h => h2 k (h1 k h)

/-- `registerValue` only adds to the namespaces map. -/
theorem registerValue_nsMono (st : EngineState) (ns key : String) (v : JSVal) :
    nsMono st (registerValue st ns key v).2 := fun _ h => alget_alset_isSome _ _ _ _ h

/-- `registerSpecifiers` never touches the namespaces map. -/
theorem registerSpecifiers_namespaces (fileName source : String) (b : Bool) :
    ∀ (specs : List ImportSpec) (st : EngineState),
      (registerSpecifiers st fileName specs source b).namespaces = st.namespaces := by
  intro specs
  induction specs with
  | nil => intro st; rfl
  | cons sp rest ih =>
    intro st
    cases sp with
    | named l i => exact ih _
    | defaultSpec l => exact ih _
    | namespaceSpec l => exact ih _

/-- Hence specifier registration preserves every mark. -/
theorem registerSpecifiers_nsMono (st : EngineState) (fileName source : String) (b : Bool)
    (specs : List ImportSpec) : nsMono st (registerSpecifiers st fileName specs source b) :=
  fun k h => by rw [registerSpecifiers_namespaces]; exact h

/-- The `module`-stub `set` trap only adds to the namespaces map. -/
theorem moduleStubSet_nsMono (st : EngineState) (ns p : String) (v : JSVal) (env : RunEnv) :
    nsMono st (moduleStubSet st ns p v env).2 := by
  simp only [moduleStubSet]
  split
  · exact fun _ h => alget_alset_isSome _ _ _ _ h
  · exact nsMono_refl st

/-- The `exports`-stub `set` trap only adds to the namespaces map. -/
theorem exportsStubSet_nsMono (st : EngineState) (ns p : String) (v : JSVal) :
    nsMono st (exportsStubSet st ns p v).2 := by
  simp only [exportsStubSet]
  repeat' split
  all_goals
    first
      | exact nsMono_refl st
      | exact fun _ h => alget_alset_isSome _ _ _ _ h

/-- Require-free expression evaluation only adds to the namespaces map. -/
theorem evalExpr_nsMono (recur : EvalFn) (fs : FileSystem) (ei : Bool) (scope : Scope) :
    ∀ (e : Expr), e.requireFree = true → ∀ (env : RunEnv) (st : EngineState),
      nsMono st (resState (evalExpr recur fs ei scope env st e)) := by
  intro e
  induction e with
  | lit v => intro _ env st; exact nsMono_refl st
  | ident n =>
    intro _ env st
    simp only [evalExpr]
    split
    · exact nsMono_refl st
    · split
      · exact nsMono_refl st
      · exact nsMono_refl st
  | add a b iha ihb =>
    intro hf env st
    simp only [Expr.requireFree, Bool.and_eq_true] at hf
    simp only [evalExpr]
    cases hA : evalExpr recur fs ei scope env st a with
    | err e2 st2 =>
      have h1 := iha hf.1 env st
      rw [hA] at h1; exact h1
    | ok r st2 =>
      obtain ⟨r1, env2⟩ := r
      have h1 := iha hf.1 env st
      rw [hA] at h1
      cases r1 with
      | thrown m => exact h1
      | val va =>
        simp only []
        cases hB : evalExpr recur fs ei scope env2 st2 b with
        | err e3 st3 =>
          have h2 := ihb hf.2 env2 st2
          rw [hB] at h2
          exact nsMono_trans h1 h2
        | ok r2 st3 =>
          obtain ⟨r2v, env3⟩ := r2
          have h2 := ihb hf.2 env2 st2
          rw [hB] at h2
          cases r2v with
          | thrown m => exact nsMono_trans h1 h2
          | val vb => exact nsMono_trans h1 h2
  | member o prop iho =>
    intro hf env st
    simp only [Expr.requireFree] at hf
    simp only [evalExpr]
    cases hA : evalExpr recur fs ei scope env st o with
    | err e2 st2 =>
      have h1 := iho hf env st
      rw [hA] at h1; exact h1
    | ok r st2 =>
      obtain ⟨r1, env2⟩ := r
      have h1 := iho hf env st
      rw [hA] at h1
      cases r1 with
      | thrown m => exact h1
      | val ov => exact h1
  | assign o prop vE iho ihv =>
    intro hf env st
    simp only [Expr.requireFree, Bool.and_eq_true] at hf
    simp only [evalExpr]
    cases hA : evalExpr recur fs ei scope env st o with
    | err e2 st2 =>
      have h1 := iho hf.1 env st
      rw [hA] at h1; exact h1
    | ok r st2 =>
      obtain ⟨r1, env2⟩ := r
      have h1 := iho hf.1 env st
      rw [hA] at h1
      cases r1 with
      | thrown m => exact h1
      | val ov =>
        simp only []
        cases hB : evalExpr recur fs ei scope env2 st2 vE with
        | err e3 st3 =>
          have h2 := ihv hf.2 env2 st2
          rw [hB] at h2
          exact nsMono_trans h1 h2
        | ok r2 st3 =>
          obtain ⟨r2v, env3⟩ := r2
          have h2 := ihv hf.2 env2 st2
          rw [hB] at h2
          have h12 := nsMono_trans h1 h2
          cases r2v with
          | thrown m => exact h12
          | val vv =>
            simp only []
            cases ov with
            | stubModule =>
              exact nsMono_trans h12 (moduleStubSet_nsMono st3 scope.namespace_ prop vv env3)
            | stubExports =>
              exact nsMono_trans h12 (exportsStubSet_nsMono st3 scope.namespace_ prop vv)
            | undef => exact h12
            | num n => exact h12
            | str s => exact h12
            | bool b => exact h12
            | sym s => exact h12
            | obj fields => exact h12
            | hostModule id => exact h12
            | hostProp id p2 => exact h12
            | stubRequire => exact h12
  | requireCall spec ihs =>
    intro hf
    simp [Expr.requireFree] at hf
  | registerValueCall ns2 key vE ihv =>
    intro hf env st
    simp only [Expr.requireFree] at hf
    simp only [evalExpr]
    cases hA : evalExpr recur fs ei scope env st vE with
    | err e2 st2 =>
      have h1 := ihv hf env st
      rw [hA] at h1; exact h1
    | ok r st2 =>
      obtain ⟨r1, env2⟩ := r
      have h1 := ihv hf env st
      rw [hA] at h1
      cases r1 with
      | thrown m => exact h1
      | val v => exact nsMono_trans h1 (registerValue_nsMono st2 ns2 key v)

/-- A require-free body run only adds to the namespaces map. -/
theorem runStmts_nsMono (recur : EvalFn) (fs : FileSystem) (ei : Bool) (scope : Scope) :
    ∀ (stmts : List Stmt), stmts.all Stmt.requireFree = true →
    ∀ (env : RunEnv) (st : EngineState),
      nsMono st (resState (runStmts recur fs ei scope env st stmts)) := by
  intro stmts
  induction stmts with
  | nil => intro _ env st; exact nsMono_refl st
  | cons s rest ih =>
    intro hf env st
    simp only [List.all_cons, Bool.and_eq_true] at hf
    cases s with
    | exprStmt e =>
      simp only [runStmts]
      cases hA : evalExpr recur fs ei scope env st e with
      | err er st2 =>
        have h1 := evalExpr_nsMono recur fs ei scope e hf.1 env st
        rw [hA] at h1; exact h1
      | ok r st2 =>
        obtain ⟨r1, env2⟩ := r
        have h1 := evalExpr_nsMono recur fs ei scope e hf.1 env st
        rw [hA] at h1
        cases r1 with
        | thrown m => exact h1
        | val v =>
          simp only []
          exact nsMono_trans h1 (ih hf.2 env2 st2)
    | ret e =>
      simp only [runStmts]
      cases hA : evalExpr recur fs ei scope env st e with
      | err er st2 =>
        have h1 := evalExpr_nsMono recur fs ei scope e hf.1 env st
        rw [hA] at h1; exact h1
      | ok r st2 =>
        obtain ⟨r1, env2⟩ := r
        have h1 := evalExpr_nsMono recur fs ei scope e hf.1 env st
        rw [hA] at h1
        cases r1 with
        | thrown m => exact h1
        | val v => exact h1
    | constDecl n e =>
      simp only [runStmts]
      cases hA : evalExpr recur fs ei scope env st e with
      | err er st2 =>
        have h1 := evalExpr_nsMono recur fs ei scope e hf.1 env st
        rw [hA] at h1; exact h1
      | ok r st2 =>
        obtain ⟨r1, env2⟩ := r
        have h1 := evalExpr_nsMono recur fs ei scope e hf.1 env st
        rw [hA] at h1
        cases r1 with
        | thrown m => exact h1
        | val v =>
          simp only []
          exact nsMono_trans h1 (ih hf.2 { env2 with locals := alset env2.locals n v } st2)
    | throwStmt m => intro k hk; exact hk

/-- The `Program`-enter insertions preserve require-freeness. -/
theorem phaseA_requireFree (ns : String) :
    ∀ (prog : List SrcStmt), prog.all SrcStmt.requireFree = true →
      (phaseA ns prog).all TCell.requireFree = true := by
  intro prog
  induction prog with
  | nil => intro _; rfl
  | cons s rest ih =>
    intro hp
    simp only [List.all_cons, Bool.and_eq_true] at hp
    cases s with
    | exprStmt e =>
      simp only [phaseA, List.all_cons, Bool.and_eq_true]
      exact ⟨hp.1, ih hp.2⟩
    | constDecl n e =>
      simp only [phaseA, List.all_cons, Bool.and_eq_true]
      exact ⟨hp.1, rfl, ih hp.2⟩
    | importDecl specs src =>
      simp only [phaseA, List.all_cons, Bool.and_eq_true]
      exact ⟨rfl, ih hp.2⟩
    | throwStmt m =>
      simp only [phaseA, List.all_cons, Bool.and_eq_true]
      exact ⟨rfl, ih hp.2⟩

/-- The rewrite emits only require-free statements for require-free
cells. -/
theorem transformCells_requireFree (recur : EvalFn) (fs : FileSystem) (ns : String) (ei : Bool) :
    ∀ (cells : List TCell), cells.all TCell.requireFree = true →
    ∀ (st : EngineState) (stmts : List Stmt) (st2 : EngineState),
      transformCells recur fs ns ei st cells = ERes.ok stmts st2 →
      stmts.all Stmt.requireFree = true := by
  intro cells
  induction cells with
  | nil =>
    intro _ st stmts st2 h
    simp only [transformCells] at h
    cases h
    rfl
  | cons c rest ih =>
    intro hf st stmts st2 h
    simp only [List.all_cons, Bool.and_eq_true] at hf
    cases c with
    | run s =>
      simp only [transformCells] at h
      cases hR : transformCells recur fs ns ei st rest with
      | err er st3 => rw [hR] at h; cases h
      | ok stmts3 st3 =>
        rw [hR] at h
        simp only [] at h
        cases h
        simp only [List.all_cons, Bool.and_eq_true]
        refine ⟨?_, ih hf.2 st _ _ hR⟩
        cases s with
        | exprStmt e => cases rest <;> exact hf.1
        | ret e => exact hf.1
        | constDecl n e => exact hf.1
        | throwStmt m => exact hf.1
    | src s =>
      cases s with
      | exprStmt e =>
        simp only [transformCells] at h
        cases hR : transformCells recur fs ns ei st rest with
        | err er st3 => rw [hR] at h; cases h
        | ok stmts3 st3 =>
          rw [hR] at h
          simp only [] at h
          cases h
          simp only [List.all_cons, Bool.and_eq_true]
          refine ⟨?_, ih hf.2 st _ _ hR⟩
          cases rest <;> exact hf.1
      | constDecl n e =>
        simp only [transformCells] at h
        cases hR : transformCells recur fs ns ei st rest with
        | err er st3 => rw [hR] at h; cases h
        | ok stmts3 st3 =>
          rw [hR] at h
          simp only [] at h
          cases h
          simp only [List.all_cons, Bool.and_eq_true]
          exact ⟨hf.1, ih hf.2 st _ _ hR⟩
      | throwStmt m =>
        simp only [transformCells] at h
        cases hR : transformCells recur fs ns ei st rest with
        | err er st3 => rw [hR] at h; cases h
        | ok stmts3 st3 =>
          rw [hR] at h
          simp only [] at h
          cases h
          simp only [List.all_cons, Bool.and_eq_true]
          exact ⟨rfl, ih hf.2 st _ _ hR⟩
      | importDecl specs src =>
        simp only [transformCells] at h
        cases hG : (!(!isAbsolutePath (normalizeImportPath ns src)) && ei
            && (alget st.namespaces (normalizeImportPath ns src)).isNone) with
        | false =>
          rw [hG] at h
          simp only [Bool.false_eq_true, if_false] at h
          exact ih hf.2 _ stmts st2 h
        | true =>
          rw [hG] at h
          simp only [if_true] at h
          cases hL : alget fs (normalizeImportPath ns src) with
          | none =>
            rw [hL] at h
            simp only [] at h
            exact nomatch h
          | some progT =>
            rw [hL] at h
            simp only [] at h
            cases hE : recur fs (markNamespace st (normalizeImportPath ns src))
                (normalizeImportPath ns src) progT ei with
            | err er st3 =>
              rw [hE] at h
              simp only [] at h
              exact nomatch h
            | ok v st3 =>
              rw [hE] at h
              simp only [] at h
              exact ih hf.2 _ stmts st2 h

/-- The rewrite phase only adds to the namespaces map, provided the
recursive evaluator does (for the files it can read). -/
theorem transformCells_nsMono (recur : EvalFn) (fs : FileSystem) (ns : String) (ei : Bool)
    (hrec : ∀ (st : EngineState) (ns2 : String) (prog : List SrcStmt),
      prog.all SrcStmt.requireFree = true → nsMono st (resState (recur fs st ns2 prog ei)))
    (hFS : ∀ (k : String) (p : List SrcStmt), alget fs k = some p →
      p.all SrcStmt.requireFree = true) :
    ∀ (cells : List TCell) (st : EngineState),
      nsMono st (resState (transformCells recur fs ns ei st cells)) := by
  intro cells
  induction cells with
  | nil => intro st; exact nsMono_refl st
  | cons c rest ih =>
    intro st
    cases c with
    | run s =>
      simp only [transformCells]
      cases hR : transformCells recur fs ns ei st rest with
      | err er st3 =>
        have h1 := ih st; rw [hR] at h1; exact h1
      | ok stmts3 st3 =>
        have h1 := ih st; rw [hR] at h1; exact h1
    | src s =>
      cases s with
      | exprStmt e =>
        simp only [transformCells]
        cases hR : transformCells recur fs ns ei st rest with
        | err er st3 => have h1 := ih st; rw [hR] at h1; exact h1
        | ok stmts3 st3 => have h1 := ih st; rw [hR] at h1; exact h1
      | constDecl n e =>
        simp only [transformCells]
        cases hR : transformCells recur fs ns ei st rest with
        | err er st3 => have h1 := ih st; rw [hR] at h1; exact h1
        | ok stmts3 st3 => have h1 := ih st; rw [hR] at h1; exact h1
      | throwStmt m =>
        simp only [transformCells]
        cases hR : transformCells recur fs ns ei st rest with
        | err er st3 => have h1 := ih st; rw [hR] at h1; exact h1
        | ok stmts3 st3 => have h1 := ih st; rw [hR] at h1; exact h1
      | importDecl specs src =>
        simp only [transformCells]
        cases hG : (!(!isAbsolutePath (normalizeImportPath ns src)) && ei
            && (alget st.namespaces (normalizeImportPath ns src)).isNone) with
        | false =>
          simp only [Bool.false_eq_true, if_false]
          exact nsMono_trans
            (registerSpecifiers_nsMono st ns src
              (!isAbsolutePath (normalizeImportPath ns src)) specs)
            (ih _)
        | true =>
          simp only [if_true]
          have hmark : nsMono st (markNamespace st (normalizeImportPath ns src)) :=
            fun k hk => alget_alset_isSome _ _ _ _ hk
          cases hL : alget fs (normalizeImportPath ns src) with
          | none => exact hmark
          | some progT =>
            simp only []
            cases hE : recur fs (markNamespace st (normalizeImportPath ns src))
                (normalizeImportPath ns src) progT ei with
            | err er st3 =>
              have h2 := hrec (markNamespace st (normalizeImportPath ns src))
                (normalizeImportPath ns src) progT (hFS _ _ hL)
              rw [hE] at h2
              exact nsMono_trans hmark h2
            | ok v st3 =>
              have h2 := hrec (markNamespace st (normalizeImportPath ns src))
                (normalizeImportPath ns src) progT (hFS _ _ hL)
              rw [hE] at h2
              simp only []
              exact nsMono_trans hmark (nsMono_trans h2
                (nsMono_trans
                  (registerSpecifiers_nsMono st3 ns src
                    (!isAbsolutePath (normalizeImportPath ns src)) specs)
                  (ih _)))

/-- `evaluate` of a require-free fragment only adds to the namespaces
map (at any fuel). -/
theorem evaluate_nsMono (fs : FileSystem)
    (hFS : ∀ (k : String) (p : List SrcStmt), alget fs k = some p →
      p.all SrcStmt.requireFree = true) :
    ∀ (fuel : Nat) (st : EngineState) (ns : String) (prog : List SrcStmt),
      prog.all SrcStmt.requireFree = true →
      nsMono st (resState (evaluate fuel fs st ns prog true)) := by
  intro fuel
  induction fuel with
  | zero => intro st ns prog _; exact nsMono_refl st
  | succ f ih =>
    intro st ns prog hp
    show nsMono st (resState (evalStep (evaluate f) fs st ns prog true))
    simp only [evalStep]
    cases hT : transformCells (evaluate f) fs ns true st (phaseA ns prog) with
    | err er st1 =>
      have h1 := transformCells_nsMono (evaluate f) fs ns true ih hFS (phaseA ns prog) st
      rw [hT] at h1; exact h1
    | ok stmts st1 =>
      have h1 := transformCells_nsMono (evaluate f) fs ns true ih hFS (phaseA ns prog) st
      rw [hT] at h1
      have hs : stmts.all Stmt.requireFree = true :=
        transformCells_requireFree (evaluate f) fs ns true (phaseA ns prog)
          (phaseA_requireFree ns prog hp) st stmts st1 hT
      simp only []
      cases hR : runStmts (evaluate f) fs true
          { namespace_ := ns, bindings := (alget st1.namespaces ns).getD [],
            imports := buildImportsForScope fs st1 ((alget st1.valueImports ns).getD []) }
          { locals := [], moduleExports := JSVal.stubExports } st1 stmts with
      | err er st2 =>
        have h2 := runStmts_nsMono (evaluate f) fs true
          { namespace_ := ns, bindings := (alget st1.namespaces ns).getD [],
            imports := buildImportsForScope fs st1 ((alget st1.valueImports ns).getD []) }
          stmts hs { locals := [], moduleExports := JSVal.stubExports } st1
        rw [hR] at h2
        exact nsMono_trans h1 h2
      | ok out st2 =>
        have h2 := runStmts_nsMono (evaluate f) fs true
          { namespace_ := ns, bindings := (alget st1.namespaces ns).getD [],
            imports := buildImportsForScope fs st1 ((alget st1.valueImports ns).getD []) }
          stmts hs { locals := [], moduleExports := JSVal.stubExports } st1
        rw [hR] at h2
        cases out with
        | normal => exact nsMono_trans h1 h2
        | returned v => exact nsMono_trans h1 h2
        | thrown m => exact nsMono_trans h1 (nsMono_trans h2 (fun k hk => hk))

/-- A require-free expression can never fail the evaluation (it can
only produce a value or a user-level throw). -/
theorem evalExpr_requireFree_ok (recur : EvalFn) (fs : FileSystem) (ei : Bool) (scope : Scope) :
    ∀ (e : Expr), e.requireFree = true → ∀ (env : RunEnv) (st : EngineState)
      (er : EngErr) (st2 : EngineState),
      evalExpr recur fs ei scope env st e ≠ ERes.err er st2 := by
  intro e
  induction e with
  | lit v => intro _ env st er st2 h; exact nomatch h
  | ident n =>
    intro _ env st er st2
    simp only [evalExpr]
    split
    · exact fun h => nomatch h
    · split
      · exact fun h => nomatch h
      · exact fun h => nomatch h
  | add a b iha ihb =>
    intro hf env st er st2
    simp only [Expr.requireFree, Bool.and_eq_true] at hf
    simp only [evalExpr]
    cases hA : evalExpr recur fs ei scope env st a with
    | err e2 st3 => exact absurd hA (iha hf.1 env st e2 st3)
    | ok r st3 =>
      obtain ⟨r1, env2⟩ := r
      cases r1 with
      | thrown m => exact fun h => nomatch h
      | val va =>
        simp only []
        cases hB : evalExpr recur fs ei scope env2 st3 b with
        | err e3 st4 => exact absurd hB (ihb hf.2 env2 st3 e3 st4)
        | ok r2 st4 =>
          obtain ⟨r2v, env3⟩ := r2
          cases r2v with
          | thrown m => exact fun h => nomatch h
          | val vb => exact fun h => nomatch h
  | member o prop iho =>
    intro hf env st er st2
    simp only [Expr.requireFree] at hf
    simp only [evalExpr]
    cases hA : evalExpr recur fs ei scope env st o with
    | err e2 st3 => exact absurd hA (iho hf env st e2 st3)
    | ok r st3 =>
      obtain ⟨r1, env2⟩ := r
      cases r1 with
      | thrown m => exact fun h => nomatch h
      | val ov => exact fun h => nomatch h
  | assign o prop vE iho ihv =>
    intro hf env st er st2
    simp only [Expr.requireFree, Bool.and_eq_true] at hf
    simp only [evalExpr]
    cases hA : evalExpr recur fs ei scope env st o with
    | err e2 st3 => exact absurd hA (iho hf.1 env st e2 st3)
    | ok r st3 =>
      obtain ⟨r1, env2⟩ := r
      cases r1 with
      | thrown m => exact fun h => nomatch h
      | val ov =>
        simp only []
        cases hB : evalExpr recur fs ei scope env2 st3 vE with
        | err e3 st4 => exact absurd hB (ihv hf.2 env2 st3 e3 st4)
        | ok r2 st4 =>
          obtain ⟨r2v, env3⟩ := r2
          cases r2v with
          | thrown m => exact fun h => nomatch h
          | val vv =>
            simp only []
            cases ov with
            | stubModule => exact fun h => nomatch h
            | stubExports => exact fun h => nomatch h
            | undef => exact fun h => nomatch h
            | num n => exact fun h => nomatch h
            | str s => exact fun h => nomatch h
            | bool b => exact fun h => nomatch h
            | sym s => exact fun h => nomatch h
            | obj fields => exact fun h => nomatch h
            | hostModule id => exact fun h => nomatch h
            | hostProp id p2 => exact fun h => nomatch h
            | stubRequire => exact fun h => nomatch h
  | requireCall spec ihs =>
    intro hf
    simp [Expr.requireFree] at hf
  | registerValueCall ns2 key vE ihv =>
    intro hf env st er st2
    simp only [Expr.requireFree] at hf
    simp only [evalExpr]
    cases hA : evalExpr recur fs ei scope env st vE with
    | err e2 st3 => exact absurd hA (ihv hf env st e2 st3)
    | ok r st3 =>
      obtain ⟨r1, env2⟩ := r
      cases r1 with
      | thrown m => exact fun h => nomatch h
      | val v => exact fun h => nomatch h

/-- A require-free body run can never fail the evaluation. -/
theorem runStmts_requireFree_ok (recur : EvalFn) (fs : FileSystem) (ei : Bool) (scope : Scope) :
    ∀ (stmts : List Stmt), stmts.all Stmt.requireFree = true →
    ∀ (env : RunEnv) (st : EngineState) (er : EngErr) (st2 : EngineState),
      runStmts recur fs ei scope env st stmts ≠ ERes.err er st2 := by
  intro stmts
  induction stmts with
  | nil => intro _ env st er st2 h; exact nomatch h
  | cons s rest ih =>
    intro hf env st er st2
    simp only [List.all_cons, Bool.and_eq_true] at hf
    cases s with
    | exprStmt e =>
      simp only [runStmts]
      cases hA : evalExpr recur fs ei scope env st e with
      | err e2 st3 => exact absurd hA (evalExpr_requireFree_ok recur fs ei scope e hf.1 env st e2 st3)
      | ok r st3 =>
        obtain ⟨r1, env2⟩ := r
        cases r1 with
        | thrown m => exact fun h => nomatch h
        | val v =>
          simp only []
          exact ih hf.2 env2 st3 er st2
    | ret e =>
      simp only [runStmts]
      cases hA : evalExpr recur fs ei scope env st e with
      | err e2 st3 => exact absurd hA (evalExpr_requireFree_ok recur fs ei scope e hf.1 env st e2 st3)
      | ok r st3 =>
        obtain ⟨r1, env2⟩ := r
        cases r1 with
        | thrown m => exact fun h => nomatch h
        | val v => exact fun h => nomatch h
    | constDecl n e =>
      simp only [runStmts]
      cases hA : evalExpr recur fs ei scope env st e with
      | err e2 st3 => exact absurd hA (evalExpr_requireFree_ok recur fs ei scope e hf.1 env st e2 st3)
      | ok r st3 =>
        obtain ⟨r1, env2⟩ := r
        cases r1 with
        | thrown m => exact fun h => nomatch h
        | val v =>
          simp only []
          exact ih hf.2 { env2 with locals := alset env2.locals n v } st3 er st2
    | throwStmt m => intro h; exact nomatch h

/-- A present key is among the map's keys. -/
theorem alget_mem_keys {α β : Type} [DecidableEq α] :
    ∀ (m : List (α × β)) (k : α) (v : β), alget m k = some v → k ∈ m.map Prod.fst := by
  intro m
  induction m with
  | nil => intro k v h; exact nomatch h
  | cons p rest ih =>
    intro k v h
    obtain ⟨k1, v1⟩ := p
    by_cases hk : k1 = k
    · subst hk; simp
    · simp only [alget, hk, if_false] at h
      simp only [List.map, List.mem_cons]
      exact Or.inr (ih k v h)

/-- Specifier registration does not change the unmarked count. -/
theorem unmarkedIn_registerSpecifiers (keys : List String) (st : EngineState)
    (fileName : String) (specs : List ImportSpec) (source : String) (b : Bool) :
    unmarkedIn keys (registerSpecifiers st fileName specs source b) = unmarkedIn keys st := by
  simp only [unmarkedIn, registerSpecifiers_namespaces]

/-- The rewrite phase cannot exhaust fuel `f + 1` when fewer than `f`
files are unmarked, and it never lowers the bound. -/
theorem transformCells_noOOF (fs : FileSystem)
    (hFS : ∀ (k : String) (p : List SrcStmt), alget fs k = some p →
      p.all SrcStmt.requireFree = true)
    (f : Nat)
    (ihf : ∀ (st : EngineState) (ns2 : String) (prog : List SrcStmt),
      prog.all SrcStmt.requireFree = true →
      unmarkedIn (fs.map Prod.fst) st < f →
      notOOF (evaluate f fs st ns2 prog true))
    (ns : String) :
    ∀ (cells : List TCell) (st : EngineState),
      unmarkedIn (fs.map Prod.fst) st < f + 1 →
      notOOF (transformCells (evaluate f) fs ns true st cells)
      ∧ (∀ (stmts : List Stmt) (st2 : EngineState),
          transformCells (evaluate f) fs ns true st cells = ERes.ok stmts st2 →
          unmarkedIn (fs.map Prod.fst) st2 < f + 1) := by
  intro cells
  induction cells with
  | nil =>
    intro st hb
    constructor
    · exact trivial
    · intro stmts st2 h
      simp only [transformCells] at h
      cases h
      exact hb
  | cons c rest ih =>
    intro st hb
    have hsimple : ∀ (w : List Stmt → List Stmt),
        notOOF (match transformCells (evaluate f) fs ns true st rest with
          | ERes.err e st2 => ERes.err e st2
          | ERes.ok stmts st2 => ERes.ok (w stmts) st2)
        ∧ (∀ (stmts : List Stmt) (st2 : EngineState),
            (match transformCells (evaluate f) fs ns true st rest with
              | ERes.err e st2 => ERes.err e st2
              | ERes.ok stmts st2 => ERes.ok (w stmts) st2) = ERes.ok stmts st2 →
            unmarkedIn (fs.map Prod.fst) st2 < f + 1) := by
      intro w
      cases hR : transformCells (evaluate f) fs ns true st rest with
      | err er st3 =>
        constructor
        · have h1 := (ih st hb).1
          rw [hR] at h1
          exact h1
        · intro stmts st2 h
          exact nomatch h
      | ok stmts3 st3 =>
        constructor
        · exact trivial
        · intro stmts st2 h
          cases h
          exact (ih st hb).2 stmts3 st3 hR
    cases c with
    | run s =>
      cases s with
      | exprStmt e =>
        cases rest with
        | nil => exact hsimple _
        | cons c2 rest2 => exact hsimple _
      | ret e => exact hsimple _
      | constDecl n e => exact hsimple _
      | throwStmt m => exact hsimple _
    | src s =>
      cases s with
      | exprStmt e =>
        cases rest with
        | nil => exact hsimple _
        | cons c2 rest2 => exact hsimple _
      | constDecl n e => exact hsimple _
      | throwStmt m => exact hsimple _
      | importDecl specs src =>
        simp only [transformCells]
        cases hG : (!(!isAbsolutePath (normalizeImportPath ns src)) && true
            && (alget st.namespaces (normalizeImportPath ns src)).isNone) with
        | false =>
          simp only [Bool.false_eq_true, if_false]
          have hb2 : unmarkedIn (fs.map Prod.fst)
              (registerSpecifiers st ns specs src
                (!isAbsolutePath (normalizeImportPath ns src))) < f + 1 := by
            rw [unmarkedIn_registerSpecifiers]; exact hb
          exact ih _ hb2
        | true =>
          simp only [if_true]
          have hc : (alget st.namespaces (normalizeImportPath ns src)).isNone = true := by
            have := hG
            simp only [Bool.and_eq_true] at this
            exact this.2
          have hu : (alget st.namespaces (normalizeImportPath ns src)).isSome = false := by
            cases ho : alget st.namespaces (normalizeImportPath ns src) with
            | some m => rw [ho] at hc; exact nomatch hc
            | none => rfl
          cases hL : alget fs (normalizeImportPath ns src) with
          | none =>
            simp only []
            constructor
            · exact trivial
            · intro stmts st2 h
              exact nomatch h
          | some progT =>
            simp only []
            have hmem := alget_mem_keys fs (normalizeImportPath ns src) progT hL
            have hlt := unmarkedIn_mark_lt (fs.map Prod.fst) st
              (normalizeImportPath ns src) hmem hu
            have hltf : unmarkedIn (fs.map Prod.fst)
                (markNamespace st (normalizeImportPath ns src)) < f :=
              Nat.lt_of_lt_of_le hlt (Nat.lt_succ_iff.mp hb)
            have hOOF := ihf (markNamespace st (normalizeImportPath ns src))
              (normalizeImportPath ns src) progT (hFS _ _ hL) hltf
            cases hE : evaluate f fs (markNamespace st (normalizeImportPath ns src))
                (normalizeImportPath ns src) progT true with
            | err er st3 =>
              rw [hE] at hOOF
              cases er with
              | outOfFuel => exact hOOF.elim
              | raised m =>
                constructor
                · exact trivial
                · intro stmts st2 h
                  exact nomatch h
            | ok v st3 =>
              simp only []
              have hmono := evaluate_nsMono fs hFS f
                (markNamespace st (normalizeImportPath ns src))
                (normalizeImportPath ns src) progT (hFS _ _ hL)
              rw [hE] at hmono
              have hle : unmarkedIn (fs.map Prod.fst) st3
                  ≤ unmarkedIn (fs.map Prod.fst)
                    (markNamespace st (normalizeImportPath ns src)) :=
                unmarkedIn_mono_le _ _ _ hmono
              have hb3 : unmarkedIn (fs.map Prod.fst)
                  (registerSpecifiers st3 ns specs src
                    (!isAbsolutePath (normalizeImportPath ns src))) < f + 1 := by
                rw [unmarkedIn_registerSpecifiers]
                exact Nat.lt_succ_of_lt (Nat.lt_of_le_of_lt hle hltf)
              exact ih _ hb3

/-- With all reachable files require-free, `evaluate` cannot exhaust
its fuel once it exceeds the number of unmarked files. -/
theorem evaluate_noOOF (fs : FileSystem)
    (hFS : ∀ (k : String) (p : List SrcStmt), alget fs k = some p →
      p.all SrcStmt.requireFree = true) :
    ∀ (fuel : Nat) (st : EngineState) (ns : String) (prog : List SrcStmt),
      prog.all SrcStmt.requireFree = true →
      unmarkedIn (fs.map Prod.fst) st < fuel →
      notOOF (evaluate fuel fs st ns prog true) := by
  intro fuel
  induction fuel with
  | zero => intro st ns prog _ hb; exact absurd hb (Nat.not_lt_zero _)
  | succ f ihf =>
    intro st ns prog hp hb
    show notOOF (evalStep (evaluate f) fs st ns prog true)
    simp only [evalStep]
    have hT := transformCells_noOOF fs hFS f ihf ns (phaseA ns prog) st hb
    cases hTr : transformCells (evaluate f) fs ns true st (phaseA ns prog) with
    | err er st1 =>
      have h1 := hT.1
      rw [hTr] at h1
      cases er with
      | outOfFuel => exact h1.elim
      | raised m => exact trivial
    | ok stmts st1 =>
      simp only []
      have hs : stmts.all Stmt.requireFree = true :=
        transformCells_requireFree (evaluate f) fs ns true (phaseA ns prog)
          (phaseA_requireFree ns prog hp) st stmts st1 hTr
      cases hR : runStmts (evaluate f) fs true
          { namespace_ := ns, bindings := (alget st1.namespaces ns).getD [],
            imports := buildImportsForScope fs st1 ((alget st1.valueImports ns).getD []) }
          { locals := [], moduleExports := JSVal.stubExports } st1 stmts with
      | err er st2 =>
        exact absurd hR (runStmts_requireFree_ok (evaluate f) fs true _ stmts hs _ st1 er st2)
      | ok out st2 =>
        cases out with
        | normal => exact trivial
        | returned v => exact trivial
        | thrown m => exact trivial

/-! ## Claim C6 -/

/-- C6: recursive evaluation of files that import each other
terminates.  For ANY two files `A` and `B` on disk holding arbitrary
require-free fragments (in particular ones importing each other),
`evaluate` with `evalImports` enabled never exhausts fuel 3: the
import-enter step gives the target an empty store entry (marks it)
BEFORE recursing, and a marked namespace is never recursively
evaluated again — processing an import of an already-marked target
does not depend on the recursive evaluator at all.  On the concrete
cycle `A ↔ B` the evaluation completes and leaves both namespaces
populated with the bindings that executed. -/
theorem claim_C6 (A B : String) (progA progB : List SrcStmt) (st : EngineState)
    (hA : progA.all SrcStmt.requireFree = true) (hB : progB.all SrcStmt.requireFree = true) :
    notOOF (evaluate 3 [(A, progA), (B, progB)] st A progA true)
    ∧ (∀ (recur1 recur2 : EvalFn) (st2 : EngineState) (specs : List ImportSpec) (src : String)
        (m : List (String × JSVal)),
        alget st2.namespaces (normalizeImportPath A src) = some m →
        transformCells recur1 [(A, progA), (B, progB)] A true st2
            [TCell.src (SrcStmt.importDecl specs src)]
          = transformCells recur2 [(A, progA), (B, progB)] A true st2
            [TCell.src (SrcStmt.importDecl specs src)])
    ∧ evalResult 3 [("/m/A.js", cycleProgA), ("/m/B.js", cycleProgB)] emptyState
        "/m/A.js" cycleProgA true = Except.ok (JSVal.num 1)
    ∧ alget ((alget (evalState 3 [("/m/A.js", cycleProgA), ("/m/B.js", cycleProgB)] emptyState
        "/m/A.js" cycleProgA true).namespaces "/m/A.js").getD []) "a" = some (JSVal.num 1)
    ∧ alget ((alget (evalState 3 [("/m/A.js", cycleProgA), ("/m/B.js", cycleProgB)] emptyState
        "/m/A.js" cycleProgA true).namespaces "/m/B.js").getD []) "b" = some (JSVal.num 2) := by
  refine ⟨?_, ?_, rfl, rfl, rfl⟩
  · refine evaluate_noOOF [(A, progA), (B, progB)] ?_ 3 st A progA hA ?_
    · intro k p h
      simp only [alget] at h
      split at h
      · cases h; exact hA
      · split at h
        · cases h; exact hB
        · exact nomatch h
    · have h2 : unmarkedIn ([(A, progA), (B, progB)].map Prod.fst) st ≤ 2 := by
        have := unmarkedIn_le_length ([(A, progA), (B, progB)].map Prod.fst) st
        simpa using this
      omega
  · intro recur1 recur2 st2 specs src m hm
    simp only [transformCells, hm, Option.isNone_some, Bool.and_false, Bool.false_eq_true,
      if_false]

/-- C6 witness: the concrete two-file cycle at fuel 3 does not exhaust
fuel, and with `/m/B.js` pre-marked, processing `A`'s import of
`./B.js` is identical under recursive evaluators of different fuel —
no recursive evaluation happens. -/
theorem claim_C6_witness :
    notOOF (evaluate 3 [("/m/A.js", cycleProgA), ("/m/B.js", cycleProgB)] emptyState
      "/m/A.js" cycleProgA true)
    ∧ transformCells (evaluate 0) [("/m/A.js", cycleProgA), ("/m/B.js", cycleProgB)] "/m/A.js"
        true (markNamespace emptyState "/m/B.js")
        [TCell.src (SrcStmt.importDecl [ImportSpec.named "b" "b"] "./B.js")]
      = transformCells (evaluate 9) [("/m/A.js", cycleProgA), ("/m/B.js", cycleProgB)] "/m/A.js"
        true (markNamespace emptyState "/m/B.js")
        [TCell.src (SrcStmt.importDecl [ImportSpec.named "b" "b"] "./B.js")] := by
  have h := claim_C6 "/m/A.js" "/m/B.js" cycleProgA cycleProgB emptyState rfl rfl
  exact ⟨h.1, h.2.1 (evaluate 0) (evaluate 9) (markNamespace emptyState "/m/B.js")
    [ImportSpec.named "b" "b"] "./B.js" [] rfl⟩
